import Mathlib

/-!
Verification development for the upload/analysis orchestration core of
`src/app.py` (Social Media Critic AI).

The Python source is shallowly embedded: pure functions become Lean
functions, the poll/retry loops become explicit fueled recursions whose
fuel is provably sufficient, streams and the temporary-file scope become
explicit state passing, and exceptions become `Except` values.  External
collaborators (the Gemini client, the Streamlit session, the filesystem)
are modelled as oracles/parameters with the state spaces the spec assigns
to them.  All definitions are executable.
-/

/-! ### Basic character/list utilities (Python string primitives) -/

/-- Characters treated as whitespace by Python `str.strip()` (ASCII part):
space, tab, newline, carriage return, vertical tab, form feed. -/
def pySpace (c : Char) : Bool :=
  c.toNat = 32 || c.toNat = 9 || c.toNat = 10 || c.toNat = 13 || c.toNat = 11 || c.toNat = 12

/-- Python `str.strip()`: drop leading and trailing whitespace. -/
def pyStrip (l : List Char) : List Char :=
  ((l.dropWhile pySpace).reverse.dropWhile pySpace).reverse

/-- Split a character list at the first occurrence of `sep`: returns the
text before and after that occurrence, or `none` when `sep` does not occur. -/
def splitFirst (sep : List Char) : List Char → Option (List Char × List Char)
  | [] => if sep.isEmpty then some ([], []) else none
  | c :: cs =>
    if sep.isPrefixOf (c :: cs) then some ([], (c :: cs).drop sep.length)
    else (splitFirst sep cs).map (fun p => (c :: p.1, p.2))

/-- Python `sep in s` (substring containment). -/
def containsSub (sep l : List Char) : Bool := (splitFirst sep l).isSome

/-- Fueled worker for `pySplitOn`.  Each step removes one occurrence of the
(nonempty) separator, strictly shrinking the text, so fuel `l.length + 1`
is always sufficient. -/
def pySplitCore (sep : List Char) : Nat → List Char → List (List Char)
  | 0, l => [l]
  | fuel+1, l =>
    match splitFirst sep l with
    | none => [l]
    | some (pre, post) => pre :: pySplitCore sep fuel post

/-- Python `s.split(sep)` for a nonempty separator. -/
def pySplitOn (sep l : List Char) : List (List Char) := pySplitCore sep (l.length + 1) l

/-- Python `s.find(c)`: index of the first occurrence (as an `Option`
instead of the `-1` sentinel). -/
def findPos (c : Char) : List Char → Option Nat
  | [] => none
  | d :: ds => if d = c then some 0 else (findPos c ds).map (fun i => i + 1)

/-- Python `s.rfind(c)`: index of the last occurrence. -/
def rfindPos (c : Char) (l : List Char) : Option Nat :=
  (findPos c l.reverse).map (fun i => l.length - 1 - i)

/-- Python slice `s[a:b]` for `0 ≤ a ≤ b`. -/
def sliceL (l : List Char) (a b : Nat) : List Char := (l.drop a).take (b - a)

/-! ### Configuration (the `CONFIG` dictionary of `app.py`) -/

def MODEL_NAME : String := "gemini-1.5-pro"

def MAX_FILE_SIZE_MB : Nat := 50

def UPLOAD_TIMEOUT_SECONDS : Nat := 120

def SUPPORTED_MIME_TYPES : List (String × String) :=
  [("png", "image/png"), ("jpg", "image/jpeg"), ("jpeg", "image/jpeg"),
   ("mp4", "video/mp4"), ("mov", "video/quicktime")]

def SUPPORTED_PLATFORMS : List (String × String) :=
  [("Instagram Reel/TikTok", "Focus on vertical video format, trends, and hook within first 3 seconds."),
   ("Instagram Post", "Focus on visual composition, caption strategy, and hashtag usage."),
   ("LinkedIn", "Focus on professional tone, thought leadership, and business value."),
   ("YouTube Thumbnail", "Focus on click-worthiness, text readability, and visual impact."),
   ("Twitter/X", "Focus on conciseness, engagement bait, and thread potential.")]

/-! ### File validation (`validate_file`) -/

/-- The uploaded file object handed over by the UI layer: declared name and
size, the raw bytes, and the stream cursor. -/
structure UploadedFile where
  name : String
  size : Nat
  data : List Nat
  pos : Nat

/-- Python `uploaded_file.size / (1024 * 1024)`.  The float division is
exact here (integer numerator below `2^53` divided by a power of two), so
the rational value is a faithful model. -/
def fileSizeMb (size : Nat) : ℚ := (size : ℚ) / (1024 * 1024)

/-- Round to the nearest integer, ties to even — the rounding used by
Python float formatting. -/
def roundHalfEven (q : ℚ) : ℤ :=
  let f := ⌊q⌋
  if q - f < 1/2 then f
  else if (1 : ℚ)/2 < q - f then f + 1
  else if f % 2 = 0 then f else f + 1

/-- Python `"%.1f"`-style formatting of a nonnegative value (as produced by
`f"{file_size_mb:.1f}"`). -/
def fmtTenth (q : ℚ) : String :=
  let n := roundHalfEven (q * 10)
  Int.repr (n / 10) ++ "." ++ Int.repr (n % 10)

/-- Python `name.split('.')[-1].lower()`. -/
def lastExt (name : String) : String :=
  String.mk (((pySplitOn ['.'] name.data).getLastD []).map Char.toLower)

/-- Embedding of `validate_file` (src/app.py lines 77-86). -/
def validate_file (uploaded : Option UploadedFile) : Bool × String :=
  match uploaded with
  | none => (false, "No file uploaded")
  | some f =>
    let mb := fileSizeMb f.size
    if mb > (MAX_FILE_SIZE_MB : ℚ) then
      (false, "File too large: " ++ fmtTenth mb ++ " MB (max " ++
        Nat.repr MAX_FILE_SIZE_MB ++ " MB)")
    else
      let ext := lastExt f.name
      if (SUPPORTED_MIME_TYPES.lookup ext).isSome then (true, "")
      else (false, "Unsupported file type: " ++ ext)

/-! ### API-key retrieval (`get_api_key`) -/

/-- Python truthiness of an optional string (`None` and `""` are falsy). -/
def pyTruthy : Option String → Bool
  | none => false
  | some s => !s.isEmpty

/-- Length of the stripped credential, `len(api_key.strip())`. -/
def stripLen (s : String) : Nat := (pyStrip s.data).length

/-- Embedding of `get_api_key` (src/app.py lines 43-51).  State is passed
explicitly: `sessionKey` is `st.session_state.api_key`, `env` is
`os.environ.get("GOOGLE_API_KEY")`, `secrets` the secret store entry.
Returns the value `return api_key` yields together with the new session
state. -/
def get_api_key (sessionKey env secrets : Option String) : Option String × Option String :=
  if pyTruthy sessionKey then (sessionKey, sessionKey)
  else
    let k1 := env
    let k2 := if !pyTruthy k1 && secrets.isSome then secrets else k1
    if pyTruthy k2 ∧ 30 < stripLen (k2.getD "") then (k2, k2) else (k2, sessionKey)

/-! ### Scoped temporary storage (`temporary_file`) -/

def CHUNK_SIZE : Nat := 8192

/-- Python `uploaded_file.read(n)`: the next `n` bytes from the cursor and
the advanced stream. -/
def readChunk (u : UploadedFile) (n : Nat) : List Nat × UploadedFile :=
  let chunk := (u.data.drop u.pos).take n
  (chunk, { u with pos := u.pos + chunk.length })

/-- The `while True` write loop of `temporary_file`: read `CHUNK_SIZE`
bytes, stop on an empty read, else append to the temp file.  Each
productive step advances the cursor, so fuel `u.data.length + 1` is always
sufficient when the cursor starts at 0. -/
def writeLoop : Nat → UploadedFile → List Nat → List Nat × UploadedFile
  | 0, u, acc => (acc, u)
  | fuel+1, u, acc =>
    let r := readChunk u CHUNK_SIZE
    if r.1.isEmpty then (acc, u)
    else writeLoop fuel r.2 (acc ++ r.1)

/-- Result of running one `with temporary_file(...)` scope. -/
structure TempScopeResult where
  written : List Nat
  stream : UploadedFile
  unlinkCalled : Bool
  tmpDeleted : Bool
  outcome : Except String Unit

/-- Embedding of the `temporary_file` context manager (src/app.py lines
53-75) for a present file.  `body` is the code run inside the `with`
scope (it may raise, modelled by `Except.error`); `unlinkRaises` says
whether `os.unlink` raises an `OSError` in the `finally` block.  The
`except OSError: pass` handler swallows that error, so the scope's
outcome is always the body's outcome. -/
def temporary_file (u : UploadedFile) (body : String → Except String Unit)
    (unlinkRaises : Bool) : TempScopeResult :=
  let suffix := "." ++ lastExt u.name
  let tmpName := "/tmpfile" ++ suffix
  let wr := writeLoop (u.data.length + 1) u []
  let u2 := { wr.2 with pos := 0 }
  let outcome := body tmpName
  { written := wr.1, stream := u2, unlinkCalled := true,
    tmpDeleted := !unlinkRaises, outcome := outcome }

/-! ### Remote upload poller (`upload_file_to_gemini`) -/

/-- Processing states of a remote asset.  Modelled from the spec: the data
model assigns the external service the state space
PENDING/PROCESSING/READY/FAILED; the code only inspects the state name
string. -/
inductive FileState where
  | PENDING
  | PROCESSING
  | READY
  | FAILED
  deriving DecidableEq, Repr

/-- Python exceptions that the orchestration raises or propagates.
`timeoutError` and `valueError` mirror `TimeoutError(msg)` and
`ValueError(msg)`; the `elapsedGhost` field records the wall-clock seconds
elapsed when the timeout was raised (a specification-level observation —
the Python exception object itself carries only the message).  `exc` is an
opaque exception coming out of the remote inference call. -/
inductive PyErr where
  | timeoutError (msg : String) (elapsedGhost : Nat)
  | valueError (msg : String)
  | exc (tag : String)
  deriving DecidableEq, Repr

deriving instance DecidableEq for Except

/-- Outcome of the `while uploaded_file.state.name == "PROCESSING"` loop. -/
inductive PollOut where
  | timedOut (elapsed : Nat)
  | exited (s : FileState)
  | outOfFuel
  deriving DecidableEq, Repr

/-- The poll loop of `upload_file_to_gemini`.  `states k` is the state
reported by the `k`-th `genai.get_file` call; `t` counts the elapsed
seconds (one `time.sleep(1)` per iteration, measured from poll start);
the loop raises `TimeoutError` as soon as the elapsed time exceeds
`timeout`.  The loop terminates solely because `t` grows, so fuel
`timeout + 2 - t` is exact; `upload_file_to_gemini_poll_no_fuelOut`
proves the `outOfFuel` branch unreachable for the fuel the wrapper
supplies. -/
def pollLoop (states : Nat → FileState) (timeout : Nat) :
    Nat → FileState → Nat → Nat → PollOut
  | 0, _, _, _ => .outOfFuel
  | fuel+1, s, t, k =>
    if s = .PROCESSING then
      if t > timeout then .timedOut t
      else pollLoop states timeout fuel (states k) (t+1) (k+1)
    else .exited s

/-- Embedding of `upload_file_to_gemini` (src/app.py lines 88-99), with the
remote service as an oracle: `init` is the state of the handle returned by
`genai.upload_file`, `states` the states returned by successive
`genai.get_file` polls. -/
def upload_file_to_gemini (init : FileState) (states : Nat → FileState)
    (timeout : Nat) : Except PyErr FileState :=
  match pollLoop states timeout (timeout + 2) init 0 0 with
  | .timedOut t =>
    .error (.timeoutError ("Upload timed out after " ++ Nat.repr timeout ++ " seconds") t)
  | .exited s =>
    if s = .FAILED then .error (.valueError "File upload failed in Gemini API")
    else .ok s
  | .outOfFuel => .error (.exc "unreachable-out-of-fuel")

/-! ### Prompt builder (`generate_analysis_prompt`) -/

/-- Embedding of `generate_analysis_prompt` (src/app.py lines 101-115):
a pure template fill; unrecognized platforms get an empty focus string. -/
def generate_analysis_prompt (platform : String) : String :=
  let platform_focus := ((SUPPORTED_PLATFORMS.lookup platform).getD "")
  "\nAnalyze this content for " ++ platform ++ ".\n" ++ platform_focus ++
  "\n\nAct as a ruthless marketing expert. No sugar-coating.\nEvaluate:\n" ++
  "1. Visual Quality & Technical Execution\n2. Hook/First Impression\n" ++
  "3. Value Proposition & Virality Potential\n\nRespond ONLY with valid JSON:\n" ++
  "\x7b\"score\": <number>, \"title\": \"<string>\", \"critique\": \"<string>\", " ++
  "\"improvement\": \"<string>\", \"next_time\": \"<string>\"\x7d\n"

/-! ### JSON values

Model of the JSON data handled by `json.loads`.  Arrays and objects are
separate inductives (isomorphic to lists) so that all functions are
plain structural recursions.  Restrictions of the modelled fragment,
stated here once: JSON numbers are integers (the source's prompt asks for
an integer score; float parsing is rejected rather than modelled, since
floating point is out of scope), and `\u` escapes must denote Unicode
scalar values (surrogate pairs are rejected). -/

mutual
inductive JVal where
  | jnull : JVal
  | jbool : Bool → JVal
  | jnum : Int → JVal
  | jstr : String → JVal
  | jarr : JArr → JVal
  | jobj : JObj → JVal
  deriving DecidableEq, Repr
inductive JArr where
  | anil : JArr
  | acons : JVal → JArr → JArr
  deriving DecidableEq, Repr
inductive JObj where
  | onil : JObj
  | ocons : String → JVal → JObj → JObj
  deriving DecidableEq, Repr
end

/-- Python dict lookup (`result[field]` / `field in result`). -/
def jlookup : JObj → String → Option JVal
  | .onil, _ => none
  | .ocons k v rest, f => if k = f then some v else jlookup rest f

/-- The keys of an object, in insertion order. -/
def jkeys : JObj → List String
  | .onil => []
  | .ocons k _ rest => k :: jkeys rest

/-- Python dict insertion `d[k] = v`: replace in place if the key exists,
else append at the end. -/
def jinsert : JObj → String → JVal → JObj
  | .onil, k, v => .ocons k v .onil
  | .ocons k0 v0 rest, k, v =>
    if k0 = k then .ocons k0 v rest else .ocons k0 v0 (jinsert rest k v)

/-- Object concatenation (used to state loop invariants). -/
def oappend : JObj → JObj → JObj
  | .onil, o2 => o2
  | .ocons k v o, o2 => .ocons k v (oappend o o2)

/-- Array append-at-end. -/
def arrSnoc : JArr → JVal → JArr
  | .anil, v => .acons v .anil
  | .acons w a, v => .acons w (arrSnoc a v)

/-- Array concatenation (used to state loop invariants). -/
def aappend : JArr → JArr → JArr
  | .anil, a2 => a2
  | .acons v a, a2 => .acons v (aappend a a2)

/-! ### JSON text: serializer -/

def digitChar (d : Nat) : Char := Char.ofNat (48 + d)

/-- Decimal digits of `n`, most significant first (fueled; fuel `n + 1`
always suffices since the argument strictly decreases). -/
def natDigitsAux : Nat → Nat → List Char
  | 0, _ => []
  | fuel+1, n => if n < 10 then [digitChar n] else natDigitsAux fuel (n / 10) ++ [digitChar (n % 10)]

def natChars (n : Nat) : List Char := natDigitsAux (n + 1) n

def intChars : Int → List Char
  | .ofNat m => natChars m
  | .negSucc m => '-' :: natChars (m + 1)

def hexChar (d : Nat) : Char := if d < 10 then Char.ofNat (48 + d) else Char.ofNat (87 + d)

/-- JSON string escaping: quote and backslash get a backslash escape,
control characters a `\u00XX` escape, everything else is emitted as is. -/
def escChar (c : Char) : List Char :=
  if c = '\"' then ['\\', '\"']
  else if c = '\\' then ['\\', '\\']
  else if c.toNat < 32 then ['\\', 'u', '0', '0', hexChar (c.toNat / 16), hexChar (c.toNat % 16)]
  else [c]

def escString (s : List Char) : List Char := s.flatMap escChar

/-- Serialized key part of an object member: the quoted, escaped key. -/
def serKey (k : String) : List Char := '\"' :: escString k.data ++ ['\"']

mutual
/-- Canonical JSON text of a value (no insignificant whitespace). -/
def serV : JVal → List Char
  | .jnull => "null".data
  | .jbool true => "true".data
  | .jbool false => "false".data
  | .jnum n => intChars n
  | .jstr s => '\"' :: escString s.data ++ ['\"']
  | .jarr a => '[' :: serAIn a ++ [']']
  | .jobj o => '\x7b' :: serOIn o ++ ['\x7d']
termination_by structural v => v
def serAIn : JArr → List Char
  | .anil => []
  | .acons v a => serV v ++ serATail a
termination_by structural a => a
def serATail : JArr → List Char
  | .anil => []
  | .acons v a => ',' :: serV v ++ serATail a
termination_by structural a => a
def serOIn : JObj → List Char
  | .onil => []
  | .ocons k v o => serKey k ++ ':' :: serV v ++ serOTail o
termination_by structural o => o
def serOTail : JObj → List Char
  | .onil => []
  | .ocons k v o => ',' :: serKey k ++ ':' :: serV v ++ serOTail o
termination_by structural o => o
end

mutual
/-- Well-formedness: every object in the tree has pairwise-distinct keys
(a Python dict cannot hold duplicate keys, so this is inherent to "JSON
object" in the claim's sense). -/
def jwfV : JVal → Bool
  | .jnull => true
  | .jbool _ => true
  | .jnum _ => true
  | .jstr _ => true
  | .jarr a => jwfA a
  | .jobj o => jkeysNodup o && jwfO o
termination_by structural v => v
def jwfA : JArr → Bool
  | .anil => true
  | .acons v a => jwfV v && jwfA a
termination_by structural a => a
def jwfO : JObj → Bool
  | .onil => true
  | .ocons _ v o => jwfV v && jwfO o
termination_by structural o => o
def jkeysNodup : JObj → Bool
  | .onil => true
  | .ocons k _ o => (jlookup o k).isNone && jkeysNodup o
termination_by structural o => o
end

mutual
/-- Number of `parseCore` invocations needed to parse the canonical text
of a value starting in `value` mode (used for fuel accounting). -/
def szV : JVal → Nat
  | .jnull => 1
  | .jbool _ => 1
  | .jnum _ => 1
  | .jstr _ => 1
  | .jarr a => 2 + szA a
  | .jobj o => 2 + szO o
termination_by structural v => v
def szA : JArr → Nat
  | .anil => 0
  | .acons v a => 1 + szV v + szA a
termination_by structural a => a
def szO : JObj → Nat
  | .onil => 0
  | .ocons _ v o => 1 + szV v + szO o
termination_by structural o => o
end

/-! ### JSON text: parser (model of Python `json.loads`) -/

/-- JSON inter-token whitespace: space, tab, newline, carriage return. -/
def jsonWs (c : Char) : Bool := c.toNat = 32 || c.toNat = 9 || c.toNat = 10 || c.toNat = 13

def skipWs : List Char → List Char
  | [] => []
  | c :: cs => if jsonWs c then skipWs cs else c :: cs

def isDigitCh (c : Char) : Bool := 48 ≤ c.toNat ∧ c.toNat ≤ 57

def hexVal (c : Char) : Option Nat :=
  if 48 ≤ c.toNat ∧ c.toNat ≤ 57 then some (c.toNat - 48)
  else if 97 ≤ c.toNat ∧ c.toNat ≤ 102 then some (c.toNat - 87)
  else if 65 ≤ c.toNat ∧ c.toNat ≤ 70 then some (c.toNat - 55)
  else none

/-- Body of a JSON string after the opening quote: returns the decoded
characters and the input after the closing quote. -/
def parseStringBody : List Char → Option (List Char × List Char)
  | [] => none
  | c :: cs =>
    if c = '\"' then some ([], cs)
    else if c = '\\' then
      match cs with
      | [] => none
      | e :: cs2 =>
        if e = '\"' then (parseStringBody cs2).map (fun p => ('\"' :: p.1, p.2))
        else if e = '\\' then (parseStringBody cs2).map (fun p => ('\\' :: p.1, p.2))
        else if e = '/' then (parseStringBody cs2).map (fun p => ('/' :: p.1, p.2))
        else if e = 'b' then (parseStringBody cs2).map (fun p => ('\x08' :: p.1, p.2))
        else if e = 'f' then (parseStringBody cs2).map (fun p => ('\x0c' :: p.1, p.2))
        else if e = 'n' then (parseStringBody cs2).map (fun p => ('\n' :: p.1, p.2))
        else if e = 'r' then (parseStringBody cs2).map (fun p => ('\r' :: p.1, p.2))
        else if e = 't' then (parseStringBody cs2).map (fun p => ('\t' :: p.1, p.2))
        else if e = 'u' then
          match cs2 with
          | h1 :: h2 :: h3 :: h4 :: cs6 =>
            match hexVal h1, hexVal h2, hexVal h3, hexVal h4 with
            | some a, some b, some c2, some d =>
              let code := ((a * 16 + b) * 16 + c2) * 16 + d
              if Nat.isValidChar code then
                (parseStringBody cs6).map (fun p => (Char.ofNat code :: p.1, p.2))
              else none
            | _, _, _, _ => none
          | _ => none
        else none
    else if c.toNat < 32 then none
    else (parseStringBody cs).map (fun p => (c :: p.1, p.2))

/-- Longest digit span at the head of the input. -/
def digitSpan : List Char → List Char × List Char
  | [] => ([], [])
  | c :: cs =>
    if isDigitCh c then
      let r := digitSpan cs
      (c :: r.1, r.2)
    else ([], c :: cs)

def digitsVal (l : List Char) : Nat := l.foldl (fun acc c => acc * 10 + (c.toNat - 48)) 0

/-- A number token may not be continued by a fraction or exponent marker
(floats are outside the modelled fragment). -/
def numTailOk : List Char → Bool
  | [] => true
  | c :: _ => !(c = '.' || c = 'e' || c = 'E')

/-- A trailing context after which a serialized number token parses back
unchanged: the next character (if any) must not extend the number token
(no digit) nor turn it into a float form (no dot or exponent marker).
All separators produced by the serializer (comma, closing brackets,
newline, fence) satisfy this. -/
def numSafe : List Char → Bool
  | [] => true
  | c :: _ => !(c = '.' || c = 'e' || c = 'E' || isDigitCh c)

def parseNatNum (l : List Char) : Option (Nat × List Char) :=
  match digitSpan l with
  | ([], _) => none
  | (d :: ds, rest) =>
    if d = '0' ∧ ds ≠ [] then none
    else if numTailOk rest then some (digitsVal (d :: ds), rest) else none

def parseNum (l : List Char) : Option (JVal × List Char) :=
  match l with
  | [] => none
  | c :: cs =>
    if c = '-' then (parseNatNum cs).map (fun p => (.jnum (-(p.1 : Int)), p.2))
    else (parseNatNum (c :: cs)).map (fun p => (.jnum (p.1 : Int), p.2))

def stripPre (pre l : List Char) : Option (List Char) :=
  if pre.isPrefixOf l then some (l.drop pre.length) else none

/-- Parser modes: `value` parses one JSON value; `obj0`/`arr0` sit right
after an opening brace/bracket; `objMem`/`arrMem` run the member/element
loop with the accumulator built so far. -/
inductive PMode where
  | value
  | obj0
  | objMem (acc : JObj)
  | arr0
  | arrMem (acc : JArr)

/-- Recursive-descent JSON parser.  The fuel bounds the number of
recursive invocations; `parseFuel` below supplies a provably sufficient
amount for any input that parses at all. -/
def parseCore : Nat → PMode → List Char → Option (JVal × List Char)
  | 0, _, _ => none
  | fuel+1, .value, l =>
    match skipWs l with
    | [] => none
    | c :: cs =>
      if c = '\x7b' then parseCore fuel .obj0 cs
      else if c = '[' then parseCore fuel .arr0 cs
      else if c = '\"' then (parseStringBody cs).map (fun p => (.jstr (String.mk p.1), p.2))
      else if c = 't' then
        match stripPre "rue".data cs with
        | some rest => some (.jbool true, rest)
        | none => none
      else if c = 'f' then
        match stripPre "alse".data cs with
        | some rest => some (.jbool false, rest)
        | none => none
      else if c = 'n' then
        match stripPre "ull".data cs with
        | some rest => some (.jnull, rest)
        | none => none
      else parseNum (c :: cs)
  | fuel+1, .obj0, l =>
    match skipWs l with
    | [] => none
    | c :: cs =>
      if c = '\x7d' then some (.jobj .onil, cs)
      else parseCore fuel (.objMem .onil) (c :: cs)
  | fuel+1, .objMem acc, l =>
    match skipWs l with
    | [] => none
    | c :: cs =>
      if c = '\"' then
        match parseStringBody cs with
        | none => none
        | some (k, r1) =>
          match skipWs r1 with
          | [] => none
          | c2 :: r2 =>
            if c2 = ':' then
              match parseCore fuel .value r2 with
              | none => none
              | some (v, r3) =>
                let acc2 := jinsert acc (String.mk k) v
                match skipWs r3 with
                | [] => none
                | c3 :: r4 =>
                  if c3 = ',' then parseCore fuel (.objMem acc2) r4
                  else if c3 = '\x7d' then some (.jobj acc2, r4)
                  else none
            else none
      else none
  | fuel+1, .arr0, l =>
    match skipWs l with
    | [] => none
    | c :: cs =>
      if c = ']' then some (.jarr .anil, cs)
      else parseCore fuel (.arrMem .anil) (c :: cs)
  | fuel+1, .arrMem acc, l =>
    match parseCore fuel .value l with
    | none => none
    | some (v, r1) =>
      let acc2 := arrSnoc acc v
      match skipWs r1 with
      | [] => none
      | c2 :: r2 =>
        if c2 = ',' then parseCore fuel (.arrMem acc2) r2
        else if c2 = ']' then some (.jarr acc2, r2)
        else none

/-- Fuel supplied to the parser: each invocation consumes at least one
character every three nested calls, so `3 * length + 3` bounds any run. -/
def parseFuel (l : List Char) : Nat := 3 * l.length + 3

/-- Model of Python `json.loads`: parse one JSON value, then require that
only whitespace remains.  A failure is a `json.JSONDecodeError`, which is
a subclass of `ValueError`. -/
def loadsJson (l : List Char) : Except PyErr JVal :=
  match parseCore (parseFuel l) .value l with
  | none => .error (.valueError "JSONDecodeError: Expecting value")
  | some (v, rest) =>
    if skipWs rest = [] then .ok v
    else .error (.valueError "JSONDecodeError: Extra data")

/-! ### Response parsing (the tail of `analyze_content`, lines 132-149) -/

def requiredFields : List String := ["score", "title", "critique", "improvement", "next_time"]

/-- The `for field in required_fields` repair loop: absent fields get the
placeholder string `"Missing <fieldname>"`. -/
def fillFields : List String → JObj → JObj
  | [], o => o
  | f :: fs, o =>
    fillFields fs (if (jlookup o f).isSome then o else jinsert o f (.jstr ("Missing " ++ f)))

def fenceJson : List Char := "```json".data

def fenceMark : List Char := "```".data

/-- The fence-extraction steps of `analyze_content`: strip, then cut out
the first JSON-tagged fenced block, else the first fenced block, else use
the stripped text itself. -/
def extractCandidate (raw : String) : List Char :=
  let txt := pyStrip raw.data
  if containsSub fenceJson txt then
    (pySplitOn fenceMark ((pySplitOn fenceJson txt).getD 1 [])).getD 0 []
  else if containsSub fenceMark txt then
    (pySplitOn fenceMark ((pySplitOn fenceMark txt).getD 1 [])).getD 0 []
  else txt

/-- The parsing tail of `analyze_content`: locate the first `{` and last
`}` in the candidate, `json.loads` the slice between them, then fill the
missing required fields.  `json.loads` on a text that starts with `{`
yields a dict whenever it succeeds, so the result is always an object. -/
def parseResponse (raw : String) : Except PyErr JObj :=
  let txt := extractCandidate raw
  match findPos '\x7b' txt, rfindPos '\x7d' txt with
  | some jsonStart, some jsonEndIdx =>
    let jsonStr := sliceL txt jsonStart (jsonEndIdx + 1)
    match loadsJson jsonStr with
    | .error e => .error e
    | .ok (.jobj kvs) => .ok (fillFields requiredFields kvs)
    | .ok _ => .error (.valueError "unreachable: brace-headed JSON parses to an object")
  | _, _ => .error (.valueError "No valid JSON found in AI response")

/-! ### Analysis orchestrator (`analyze_content`) -/

def max_retries : Nat := 2

/-- The `for attempt in range(max_retries)` retry loop around the
inference call.  `infer attempt` is the outcome of the `attempt`-th
`model.generate_content` call; `remaining` is `max_retries - attempt`, so
`remaining = 0` after a failure means `attempt == max_retries - 1` and
the exception propagates; otherwise the loop sleeps `2 ** attempt`
seconds (recorded in `sleeps`) and retries.  `calls` counts inference
invocations.  The fuel-exhaustion branch models the `NameError` a
zero-iteration loop would hit at `response.text`; it is unreachable for
`max_retries = 2`. -/
def retryLoop (infer : Nat → Except PyErr String) :
    Nat → Nat → List Nat → Nat → Except PyErr String × List Nat × Nat
  | 0, _, sleeps, calls => (.error (.exc "NameError: response is not defined"), sleeps, calls)
  | remaining+1, attempt, sleeps, calls =>
    match infer attempt with
    | .ok t => (.ok t, sleeps, calls + 1)
    | .error e =>
      if remaining = 0 then (.error e, sleeps, calls + 1)
      else retryLoop infer remaining (attempt + 1) (sleeps ++ [2 ^ attempt]) (calls + 1)

/-- Embedding of `analyze_content` (src/app.py lines 117-149), with the
remote service as oracles: the upload handshake as in
`upload_file_to_gemini`, and `infer attempt` the text (or exception) of
the `attempt`-th inference call.  Client configuration
(`configure_gemini_model`) has no observable effect in scope and is
elided.  Returns the result together with the backoff sleeps performed
and the number of inference calls made. -/
def analyze_content (init : FileState) (states : Nat → FileState)
    (infer : Nat → Except PyErr String) (platform : String) :
    Except PyErr JObj × List Nat × Nat :=
  match upload_file_to_gemini init states UPLOAD_TIMEOUT_SECONDS with
  | .error e => (.error e, [], 0)
  | .ok _gemini_file =>
    let _prompt := generate_analysis_prompt platform
    match retryLoop infer max_retries 0 [] 0 with
    | (.ok t, sleeps, calls) => (parseResponse t, sleeps, calls)
    | (.error e, sleeps, calls) => (.error e, sleeps, calls)

/-! ### Claim C10: `validate_file` checks size before extension -/

lemma fileSizeMb_gt_max (size : Nat) (h : 50 * 1024 * 1024 < size) :
    fileSizeMb size > (MAX_FILE_SIZE_MB : ℚ) := by
  have h' : ((50 * 1024 * 1024 : Nat) : ℚ) < (size : ℚ) := by exact_mod_cast h
  rw [fileSizeMb, MAX_FILE_SIZE_MB, gt_iff_lt, lt_div_iff₀ (by norm_num)]
  push_cast at h' ⊢
  linarith

lemma fileSizeMb_le_max (size : Nat) (h : size ≤ 50 * 1024 * 1024) :
    ¬ fileSizeMb size > (MAX_FILE_SIZE_MB : ℚ) := by
  have h' : (size : ℚ) ≤ ((50 * 1024 * 1024 : Nat) : ℚ) := by exact_mod_cast h
  rw [fileSizeMb, MAX_FILE_SIZE_MB, gt_iff_lt, not_lt, div_le_iff₀ (by norm_num)]
  push_cast at h' ⊢
  linarith

/-- Claim C10: `validate_file` checks the size limit before the extension:
an oversized file is rejected with the size message — which reports the
actual size and the maximum — regardless of its extension, and the
extension check only produces the reason for files within the size limit. -/
theorem c10_size_check_precedes_extension :
    (∀ (name : String) (size : Nat) (d : List Nat) (p : Nat),
      50 * 1024 * 1024 < size →
      validate_file (some ⟨name, size, d, p⟩) =
        (false, "File too large: " ++ fmtTenth (fileSizeMb size) ++ " MB (max " ++
          Nat.repr MAX_FILE_SIZE_MB ++ " MB)")) ∧
    (∀ (name : String) (size : Nat) (d : List Nat) (p : Nat),
      size ≤ 50 * 1024 * 1024 →
      SUPPORTED_MIME_TYPES.lookup (lastExt name) = none →
      validate_file (some ⟨name, size, d, p⟩) =
        (false, "Unsupported file type: " ++ lastExt name)) := by
  constructor
  · intro name size d p h
    rw [validate_file]
    simp only [if_pos (fileSizeMb_gt_max size h)]
  · intro name size d p h hext
    rw [validate_file]
    simp only [if_neg (fileSizeMb_le_max size h), hext, Option.isSome_none, Bool.false_eq_true,
      if_false]

/-- Witness for C10: a 50 MiB + 1 byte file with an unsupported extension
is rejected for its size, and a small file with the same extension is
rejected for its extension. -/
theorem c10_size_check_precedes_extension_witness :
    validate_file (some ⟨"clip.xyz", 52428801, [], 0⟩) =
      (false, "File too large: " ++ fmtTenth (fileSizeMb 52428801) ++ " MB (max " ++
        Nat.repr MAX_FILE_SIZE_MB ++ " MB)") ∧
    validate_file (some ⟨"clip.xyz", 100, [], 0⟩) =
      (false, "Unsupported file type: " ++ lastExt "clip.xyz") :=
  ⟨c10_size_check_precedes_extension.1 "clip.xyz" 52428801 [] 0 (by decide),
   c10_size_check_precedes_extension.2 "clip.xyz" 100 [] 0 (by decide) (by decide)⟩

/-! ### Claim C3: credential length validation -/

/-- Claim C3 counterexample: a credential of stripped length at most 30
found in the environment is still returned by `get_api_key` (and hence
used to configure the client); the length check only gates persistence,
refuting that length > 30 credentials are the only ones accepted for use. -/
theorem c3_short_credential_still_returned :
    (get_api_key none (some "shortkey") none).1 = some "shortkey" ∧
      stripLen "shortkey" ≤ 30 := by decide

/-- Claim C3 (amended): the stripped-length > 30 check is the sole
validation, but it gates only persistence to the session state: a truthy
session credential is returned as is, and a credential found in the
environment (or, when the environment is unset, in the secret store) is
returned regardless of its length, being persisted to the session exactly
when its stripped length exceeds 30. -/
theorem c3_length_gates_only_persistence :
    (∀ (s : String) (env secrets : Option String), s ≠ "" →
      get_api_key (some s) env secrets = (some s, some s)) ∧
    (∀ k : String, get_api_key none (some k) none =
      (some k, if 30 < stripLen k then some k else none)) ∧
    (∀ k : String, get_api_key none none (some k) =
      (some k, if 30 < stripLen k then some k else none)) := by
  refine ⟨?_, ?_, ?_⟩
  · intro s env secrets hs
    rw [get_api_key]
    simp [pyTruthy, String.isEmpty_iff, hs]
  · intro k
    by_cases hk : k = ""
    · subst hk; decide
    · rw [get_api_key]
      by_cases hlen : 30 < stripLen k
      · simp [pyTruthy, String.isEmpty_iff, hk, hlen]
      · simp [pyTruthy, String.isEmpty_iff, hk, hlen]
  · intro k
    by_cases hk : k = ""
    · subst hk; decide
    · rw [get_api_key]
      by_cases hlen : 30 < stripLen k
      · simp [pyTruthy, String.isEmpty_iff, hk, hlen]
      · simp [pyTruthy, String.isEmpty_iff, hk, hlen]

/-- Witness for C3 (amended): a nonempty session credential is returned
unchanged, and a 32-character environment credential is both returned and
persisted. -/
theorem c3_length_gates_only_persistence_witness :
    get_api_key (some "sessioncredential") none none =
      (some "sessioncredential", some "sessioncredential") ∧
    get_api_key none (some "k1234567890123456789012345678901") none =
      (some "k1234567890123456789012345678901",
        if 30 < stripLen "k1234567890123456789012345678901" then
          some "k1234567890123456789012345678901" else none) :=
  ⟨c3_length_gates_only_persistence.1 "sessioncredential" none none (by decide),
   c3_length_gates_only_persistence.2.1 "k1234567890123456789012345678901"⟩

/-! ### Claim C9: scoped temporary storage -/

lemma drop_take_length_drop (n : Nat) (l : List Nat) :
    l.drop (l.take n).length = l.drop n := by
  rcases le_or_lt n l.length with h | h
  · rw [List.length_take, Nat.min_eq_left h]
  · rw [List.length_take, Nat.min_eq_right (le_of_lt h),
      List.drop_length, List.drop_eq_nil_of_le (le_of_lt h)]

lemma chunk_reassemble (p : Nat) (l : List Nat) :
    (l.drop p).take CHUNK_SIZE ++ l.drop (p + ((l.drop p).take CHUNK_SIZE).length) =
      l.drop p := by
  have h1 : l.drop (p + ((l.drop p).take CHUNK_SIZE).length) =
      (l.drop p).drop ((l.drop p).take CHUNK_SIZE).length := by
    rw [List.drop_drop, Nat.add_comm]
  rw [h1, drop_take_length_drop, List.take_append_drop]

lemma writeLoop_spec : ∀ (fuel : Nat) (u : UploadedFile) (acc : List Nat),
    u.pos ≤ u.data.length → u.data.length - u.pos < fuel →
    writeLoop fuel u acc = (acc ++ u.data.drop u.pos, { u with pos := u.data.length }) := by
  intro fuel
  induction fuel with
  | zero => intro u acc _ h; omega
  | succ fuel ih =>
    intro u acc hpos hfuel
    rw [writeLoop]
    simp only [readChunk]
    by_cases hempty : ((u.data.drop u.pos).take CHUNK_SIZE).isEmpty
    · rw [if_pos hempty]
      rw [List.isEmpty_iff, List.take_eq_nil_iff] at hempty
      have hdrop : u.data.drop u.pos = [] := by
        rcases hempty with h | h
        · exact absurd h (by decide)
        · exact h
      have hlen : u.pos = u.data.length := by
        have := List.drop_eq_nil_iff.mp hdrop
        omega
      rw [hdrop, List.append_nil, ← hlen]
    · rw [if_neg hempty]
      rw [List.isEmpty_iff] at hempty
      have hclen : 0 < ((u.data.drop u.pos).take CHUNK_SIZE).length :=
        List.length_pos.mpr hempty
      have htk : ((u.data.drop u.pos).take CHUNK_SIZE).length ≤ u.data.length - u.pos := by
        calc ((u.data.drop u.pos).take CHUNK_SIZE).length ≤ (u.data.drop u.pos).length :=
              List.length_take_le' _ _
          _ = u.data.length - u.pos := List.length_drop _ _
      rw [ih { u with pos := u.pos + ((u.data.drop u.pos).take CHUNK_SIZE).length }
        (acc ++ (u.data.drop u.pos).take CHUNK_SIZE) (by dsimp only; omega)
        (by dsimp only; omega)]
      dsimp only
      rw [List.append_assoc, chunk_reassemble]

/-- Claim C9: for a non-empty input stream, the temporary file is written
in fixed 8 KiB chunks and equals the input byte for byte, the stream
cursor is reset to 0 before the scope body runs, the `finally` block
always attempts deletion (on success and on an exception inside the
scope alike), a deletion failure is swallowed, and the scope's outcome is
always exactly the body's outcome. -/
theorem c9_temp_file_roundtrip_and_cleanup
    (name : String) (size : Nat) (bytes : List Nat)
    (body : String → Except String Unit) (unlinkRaises : Bool)
    (hne : bytes ≠ []) :
    (temporary_file ⟨name, size, bytes, 0⟩ body unlinkRaises).written = bytes ∧
    (temporary_file ⟨name, size, bytes, 0⟩ body unlinkRaises).stream.pos = 0 ∧
    (temporary_file ⟨name, size, bytes, 0⟩ body unlinkRaises).unlinkCalled = true ∧
    (unlinkRaises = false →
      (temporary_file ⟨name, size, bytes, 0⟩ body unlinkRaises).tmpDeleted = true) ∧
    (temporary_file ⟨name, size, bytes, 0⟩ body unlinkRaises).outcome =
      body ("/tmpfile" ++ ("." ++ lastExt name)) := by
  have hw := writeLoop_spec (bytes.length + 1) ⟨name, size, bytes, 0⟩ []
    (by simp) (by simp)
  rw [temporary_file]
  simp [hw]

/-- Witness for C9: a three-byte stream with a body that raises and a
deletion that succeeds. -/
theorem c9_temp_file_roundtrip_and_cleanup_witness :
    (temporary_file ⟨"v.mp4", 3, [7, 8, 9], 0⟩ (fun _ => .error "boom") false).written =
      [7, 8, 9] ∧
    (temporary_file ⟨"v.mp4", 3, [7, 8, 9], 0⟩ (fun _ => .error "boom") false).stream.pos = 0 ∧
    (temporary_file ⟨"v.mp4", 3, [7, 8, 9], 0⟩ (fun _ => .error "boom") false).unlinkCalled = true ∧
    (false = false →
      (temporary_file ⟨"v.mp4", 3, [7, 8, 9], 0⟩ (fun _ => .error "boom") false).tmpDeleted =
        true) ∧
    (temporary_file ⟨"v.mp4", 3, [7, 8, 9], 0⟩ (fun _ => .error "boom") false).outcome =
      (fun _ => (.error "boom" : Except String Unit)) ("/tmpfile" ++ ("." ++ lastExt "v.mp4")) :=
  c9_temp_file_roundtrip_and_cleanup "v.mp4" 3 [7, 8, 9] (fun _ => .error "boom") false
    (by decide)

/-! ### Claims C2 and C8: the upload poller -/

lemma pollLoop_inv (states : Nat → FileState) (T : Nat) :
    ∀ (fuel t k : Nat) (s : FileState), fuel + t = T + 2 → t ≤ T + 1 →
    (∃ s', pollLoop states T fuel s t k = .exited s' ∧ s' ≠ .PROCESSING) ∨
      pollLoop states T fuel s t k = .timedOut (T + 1) := by
  intro fuel
  induction fuel with
  | zero => intro t k s h1 h2; omega
  | succ fuel ih =>
    intro t k s h1 h2
    rw [pollLoop]
    by_cases hs : s = .PROCESSING
    · rw [if_pos hs]
      by_cases ht : t > T
      · rw [if_pos ht]
        right
        have : t = T + 1 := by omega
        rw [this]
      · rw [if_neg ht]
        exact ih (t+1) (k+1) (states k) (by omega) (by omega)
    · rw [if_neg hs]
      exact Or.inl ⟨s, rfl, hs⟩

lemma pollLoop_all_processing (states : Nat → FileState) (T : Nat)
    (hstates : ∀ j, states j = .PROCESSING) :
    ∀ (fuel t k : Nat), fuel + t = T + 2 → t ≤ T + 1 →
    pollLoop states T fuel .PROCESSING t k = .timedOut (T + 1) := by
  intro fuel
  induction fuel with
  | zero => intro t k h1 h2; omega
  | succ fuel ih =>
    intro t k h1 h2
    rw [pollLoop]
    rw [if_pos rfl]
    by_cases ht : t > T
    · rw [if_pos ht]
      have : t = T + 1 := by omega
      rw [this]
    · rw [if_neg ht, hstates k]
      exact ih (t+1) (k+1) (by omega) (by omega)

/-- Claim C2 counterexample: with the default 120 s timeout and a remote
that stays PROCESSING, the upload fails after 121 elapsed seconds but the
error message reports the configured timeout ("120 seconds") and does not
contain the elapsed value ("121") — refuting that the message includes
the elapsed seconds. -/
theorem c2_timeout_message_lacks_elapsed :
    upload_file_to_gemini .PROCESSING (fun _ => .PROCESSING) 120 =
      .error (.timeoutError "Upload timed out after 120 seconds" 121) ∧
    containsSub (Nat.repr 121).data "Upload timed out after 120 seconds".data = false := by
  decide

/-- Claim C2 (amended): if the remote asset stays PROCESSING past the
configured timeout (measured from poll start), the upload fails with a
TimeoutError whose message reports the configured timeout value; the
elapsed time at the moment of failure is timeout + 1 seconds, which
strictly exceeds the timeout. -/
theorem c2_stuck_processing_times_out (timeout : Nat) (states : Nat → FileState)
    (hstates : ∀ j, states j = .PROCESSING) :
    upload_file_to_gemini .PROCESSING states timeout =
      .error (.timeoutError ("Upload timed out after " ++ Nat.repr timeout ++ " seconds")
        (timeout + 1)) ∧
    timeout + 1 > timeout := by
  constructor
  · rw [upload_file_to_gemini,
      pollLoop_all_processing states timeout hstates (timeout + 2) 0 0 (by omega) (by omega)]
  · omega

/-- Witness for C2 (amended) at the default 120 s timeout. -/
theorem c2_stuck_processing_times_out_witness :
    upload_file_to_gemini .PROCESSING (fun _ => .PROCESSING) 120 =
      .error (.timeoutError ("Upload timed out after " ++ Nat.repr 120 ++ " seconds") (120 + 1)) ∧
    120 + 1 > 120 :=
  c2_stuck_processing_times_out 120 (fun _ => .PROCESSING) (fun _ => rfl)

/-- Claim C8 counterexample: a handle reported in PENDING state exits the
PROCESSING-only poll loop immediately and is returned as is, so a normal
return does not guarantee a READY handle. -/
theorem c8_pending_handle_returned :
    upload_file_to_gemini .PENDING (fun _ => .READY) 120 = .ok .PENDING ∧
    FileState.PENDING ≠ FileState.READY := by decide

/-- Claim C8 (amended): the upload has exactly three outcomes — a normal
return whose handle is neither PROCESSING nor FAILED (READY, or PENDING
passed through untouched), an UploadFailed ValueError when the remote
reports FAILED, and a timeout error otherwise; in particular a
PROCESSING→PROCESSING→READY trace within the timeout returns the READY
handle. -/
theorem c8_upload_three_outcomes (init : FileState) (states : Nat → FileState)
    (timeout : Nat) :
    ((∃ s, upload_file_to_gemini init states timeout = .ok s ∧
        s ≠ .PROCESSING ∧ s ≠ .FAILED) ∨
      upload_file_to_gemini init states timeout =
        .error (.valueError "File upload failed in Gemini API") ∨
      (∃ m t, upload_file_to_gemini init states timeout = .error (.timeoutError m t))) ∧
    upload_file_to_gemini .PROCESSING (fun k => if k = 0 then .PROCESSING else .READY) 120 =
      .ok .READY := by
  constructor
  · rw [upload_file_to_gemini]
    rcases pollLoop_inv states timeout (timeout + 2) 0 0 init (by omega) (by omega) with
      ⟨s', hpoll, hs'⟩ | hpoll
    · rw [hpoll]
      dsimp only
      by_cases hf : s' = .FAILED
      · rw [if_pos hf]
        exact Or.inr (Or.inl rfl)
      · rw [if_neg hf]
        exact Or.inl ⟨s', rfl, hs', hf⟩
    · rw [hpoll]
      exact Or.inr (Or.inr ⟨_, _, rfl⟩)
  · decide

/-! ### Claims C1 and C4: the inference retry loop -/

/-- Claim C1 counterexample: in a run where the inference call throws on
attempt 1 and succeeds on attempt 2, the single backoff sleep lasts
2^0 = 1 second (the exponent is the zero-based attempt index), not
base^1 = 2 seconds as claimed. -/
theorem c1_backoff_is_one_second_not_two :
    (analyze_content .READY (fun _ => .READY)
      (fun n => if n = 0 then .error (.exc "boom") else .ok "\x7b\x7d") "LinkedIn").2.1 =
      [1] ∧ ([1] : List Nat) ≠ [2] := by decide

/-- Claim C1 (amended): if the inference call raises on attempt 1 and
succeeds on attempt 2, `analyze_content` returns the result parsed from
the successful response and performs exactly one backoff sleep, of
2^0 = 1 second, before the retry (two inference calls in total). -/
theorem c1_retry_returns_second_attempt_after_one_second_sleep
    (init : FileState) (states : Nat → FileState) (infer : Nat → Except PyErr String)
    (platform : String) (f : FileState) (e : PyErr) (t : String)
    (hup : upload_file_to_gemini init states UPLOAD_TIMEOUT_SECONDS = .ok f)
    (h0 : infer 0 = .error e) (h1 : infer 1 = .ok t) :
    analyze_content init states infer platform = (parseResponse t, [1], 2) := by
  rw [analyze_content, hup]
  simp [max_retries, retryLoop, h0, h1]

/-- Witness for C1 (amended): a remote that is READY at once, a first
attempt that throws and a second that returns a fixed text. -/
theorem c1_retry_returns_second_attempt_after_one_second_sleep_witness :
    analyze_content .READY (fun _ => .READY)
      (fun n => if n = 0 then .error (.exc "boom") else .ok "\x7b\x7d") "LinkedIn" =
      (parseResponse "\x7b\x7d", [1], 2) :=
  c1_retry_returns_second_attempt_after_one_second_sleep .READY (fun _ => .READY)
    (fun n => if n = 0 then .error (.exc "boom") else .ok "\x7b\x7d") "LinkedIn"
    .READY (.exc "boom") "\x7b\x7d" (by decide) (by decide) (by decide)

/-- Claim C4: if the inference call raises on both attempts, the loop
makes exactly two inference calls (no third attempt) and
`analyze_content` propagates the second attempt's exception unchanged. -/
theorem c4_exhaustion_propagates_second_exception
    (init : FileState) (states : Nat → FileState) (infer : Nat → Except PyErr String)
    (platform : String) (f : FileState) (e1 e2 : PyErr)
    (hup : upload_file_to_gemini init states UPLOAD_TIMEOUT_SECONDS = .ok f)
    (h0 : infer 0 = .error e1) (h1 : infer 1 = .error e2) :
    analyze_content init states infer platform = (.error e2, [1], 2) := by
  rw [analyze_content, hup]
  simp [max_retries, retryLoop, h0, h1]

/-- Witness for C4: both attempts throw distinct opaque exceptions; the
second one surfaces. -/
theorem c4_exhaustion_propagates_second_exception_witness :
    analyze_content .READY (fun _ => .READY)
      (fun n => if n = 0 then .error (.exc "boom1") else .error (.exc "boom2")) "LinkedIn" =
      (.error (.exc "boom2"), [1], 2) :=
  c4_exhaustion_propagates_second_exception .READY (fun _ => .READY)
    (fun n => if n = 0 then .error (.exc "boom1") else .error (.exc "boom2")) "LinkedIn"
    .READY (.exc "boom1") (.exc "boom2") (by decide) (by decide) (by decide)

/-! ### Claim C7: missing braces abort parsing -/

/-- Claim C7: if the extracted candidate text lacks an opening or a
closing brace, parsing fails with the "No valid JSON found" ValueError
(the MalformedResponseKind) and no result is produced. -/
theorem c7_missing_brace_is_malformed (raw : String)
    (h : findPos '\x7b' (extractCandidate raw) = none ∨
      rfindPos '\x7d' (extractCandidate raw) = none) :
    parseResponse raw = .error (.valueError "No valid JSON found in AI response") := by
  simp only [parseResponse]
  rcases hf : findPos '\x7b' (extractCandidate raw) with _ | s
  · rcases hr : rfindPos '\x7d' (extractCandidate raw) with _ | e <;> rfl
  · rcases hr : rfindPos '\x7d' (extractCandidate raw) with _ | e
    · rfl
    · exfalso
      rcases h with h | h
      · rw [hf] at h; exact Option.noConfusion h
      · rw [hr] at h; exact Option.noConfusion h

/-- Witness for C7: a brace-free response text. -/
theorem c7_missing_brace_is_malformed_witness :
    parseResponse "The model returned no JSON object at all" =
      .error (.valueError "No valid JSON found in AI response") :=
  c7_missing_brace_is_malformed "The model returned no JSON object at all" (by decide)

/-! ### Claim C6: the result is always fully populated -/

lemma jlookup_jinsert (k : String) (v : JVal) (f : String) :
    ∀ (o : JObj), jlookup (jinsert o k v) f = if f = k then some v else jlookup o f
  | .onil => by
    by_cases hfk : f = k
    · subst hfk; simp [jinsert, jlookup]
    · simp [jinsert, jlookup, hfk, Ne.symm hfk]
  | .ocons k0 v0 rest => by
    have ih := jlookup_jinsert k v f rest
    by_cases hk0 : k0 = k
    · subst hk0
      by_cases hfk : f = k0
      · subst hfk; simp [jinsert, jlookup]
      · simp [jinsert, jlookup, hfk, Ne.symm hfk]
    · by_cases hfk0 : k0 = f
      · subst hfk0
        simp [jinsert, jlookup, hk0, Ne.symm hk0]
      · simp [jinsert, jlookup, hk0, hfk0, ih]
termination_by structural o => o

lemma fillFields_preserves : ∀ (fs : List String) (o : JObj) (f : String) (v : JVal),
    jlookup o f = some v → jlookup (fillFields fs o) f = some v := by
  intro fs
  induction fs with
  | nil => intro o f v h; exact h
  | cons g gs ih =>
    intro o f v h
    rw [fillFields]
    by_cases hg : (jlookup o g).isSome
    · rw [if_pos hg]; exact ih o f v h
    · rw [if_neg hg]
      refine ih _ f v ?_
      rw [jlookup_jinsert]
      by_cases hfg : f = g
      · subst hfg; rw [h] at hg; exact absurd rfl hg
      · rw [if_neg hfg]; exact h

lemma fillFields_fills : ∀ (fs : List String) (o : JObj) (f : String), f ∈ fs →
    jlookup o f = none → jlookup (fillFields fs o) f = some (.jstr ("Missing " ++ f)) := by
  intro fs
  induction fs with
  | nil => intro o f hmem; exact absurd hmem (List.not_mem_nil f)
  | cons g gs ih =>
    intro o f hmem hnone
    rw [fillFields]
    by_cases hfg : f = g
    · subst hfg
      rw [if_neg (by rw [hnone]; exact Bool.false_ne_true ∘ congrArg id)]
      exact fillFields_preserves gs _ f _ (by rw [jlookup_jinsert, if_pos rfl])
    · have hmem' : f ∈ gs := by
        rcases List.mem_cons.mp hmem with h | h
        · exact absurd h hfg
        · exact h
      by_cases hg : (jlookup o g).isSome
      · rw [if_pos hg]; exact ih o f hmem' hnone
      · rw [if_neg hg]
        refine ih _ f hmem' ?_
        rw [jlookup_jinsert, if_neg hfg]
        exact hnone

lemma fillFields_total (fs : List String) (o : JObj) (f : String) (hmem : f ∈ fs) :
    (jlookup (fillFields fs o) f).isSome = true := by
  rcases hl : jlookup o f with _ | v
  · rw [fillFields_fills fs o f hmem hl]; rfl
  · rw [fillFields_preserves fs o f v hl]; rfl

/-- Claim C6: whenever `parseResponse` succeeds, the returned object has
all five required fields, and every required field absent from the loaded
JSON object is filled with the placeholder string "Missing <fieldname>". -/
theorem c6_result_always_fully_populated (raw : String) (r : JObj)
    (h : parseResponse raw = .ok r) :
    (∀ f ∈ requiredFields, (jlookup r f).isSome = true) ∧
    ∃ kvs : JObj, r = fillFields requiredFields kvs ∧
      ∀ f ∈ requiredFields, jlookup kvs f = none →
        jlookup r f = some (.jstr ("Missing " ++ f)) := by
  simp only [parseResponse] at h
  split at h
  · split at h
    · exact absurd h (by simp)
    · rename_i kvs heq
      injection h with h
      subst h
      exact ⟨fun f hf => fillFields_total _ _ f hf,
        kvs, rfl, fun f hf hnone => fillFields_fills _ _ f hf hnone⟩
    · exact absurd h (by simp)
  · exact absurd h (by simp)

def cSixRaw : String := "Here is the result:\n\x7b\"score\":50,\"title\":\"x\"\x7d\nThanks"

def cSixFilled : JObj :=
  .ocons "score" (.jnum 50) (.ocons "title" (.jstr "x")
    (.ocons "critique" (.jstr "Missing critique") (.ocons "improvement"
      (.jstr "Missing improvement") (.ocons "next_time" (.jstr "Missing next_time") .onil))))

/-- Witness for C6: the bare-JSON response with only two of the five
fields parses to a fully populated object with three placeholders. -/
theorem c6_result_always_fully_populated_witness :
    (∀ f ∈ requiredFields, (jlookup cSixFilled f).isSome = true) ∧
    ∃ kvs : JObj, cSixFilled = fillFields requiredFields kvs ∧
      ∀ f ∈ requiredFields, jlookup kvs f = none →
        jlookup cSixFilled f = some (.jstr ("Missing " ++ f)) :=
  c6_result_always_fully_populated cSixRaw cSixFilled (by decide)

/-! ### Claim C5: round trip of fenced JSON — character-level lemmas -/

lemma char_ne_code {c d : Char} (h : c.toNat ≠ d.toNat) : c ≠ d :=
  fun e => h (congrArg Char.toNat e)

lemma toNat_ofNat_small (n : Nat) (h : n < 55296) : (Char.ofNat n).toNat = n := by
  rw [Char.ofNat, dif_pos (Or.inl h : Nat.isValidChar n)]
  rfl

lemma skipWs_cons {c : Char} (cs : List Char) (h : jsonWs c = false) :
    skipWs (c :: cs) = c :: cs := by
  rw [skipWs, h]
  rfl

lemma digitChar_toNat {d : Nat} (h : d < 10) : (digitChar d).toNat = 48 + d := by
  rw [digitChar, toNat_ofNat_small _ (by omega)]

lemma parseCore_value_obj (fuel : Nat) (cs : List Char) :
    parseCore (fuel+1) .value ('\x7b' :: cs) = parseCore fuel .obj0 cs := by
  rw [parseCore, skipWs_cons cs (by decide)]
  rfl

lemma parseCore_value_arr (fuel : Nat) (cs : List Char) :
    parseCore (fuel+1) .value ('[' :: cs) = parseCore fuel .arr0 cs := by
  rw [parseCore, skipWs_cons cs (by decide)]
  rfl

lemma parseCore_value_str (fuel : Nat) (cs : List Char) :
    parseCore (fuel+1) .value ('\"' :: cs) =
      (parseStringBody cs).map (fun p => (.jstr (String.mk p.1), p.2)) := by
  rw [parseCore, skipWs_cons cs (by decide)]
  rfl

lemma parseCore_value_true (fuel : Nat) (rest : List Char) :
    parseCore (fuel+1) .value ("true".data ++ rest) = some (.jbool true, rest) := by
  show parseCore (fuel+1) .value ('t' :: ("rue".data ++ rest)) = some (.jbool true, rest)
  rw [parseCore, skipWs_cons _ (by decide)]
  simp [stripPre, List.isPrefixOf]

lemma parseCore_value_false (fuel : Nat) (rest : List Char) :
    parseCore (fuel+1) .value ("false".data ++ rest) = some (.jbool false, rest) := by
  show parseCore (fuel+1) .value ('f' :: ("alse".data ++ rest)) = some (.jbool false, rest)
  rw [parseCore, skipWs_cons _ (by decide)]
  simp [stripPre, List.isPrefixOf]

lemma parseCore_value_null (fuel : Nat) (rest : List Char) :
    parseCore (fuel+1) .value ("null".data ++ rest) = some (.jnull, rest) := by
  show parseCore (fuel+1) .value ('n' :: ("ull".data ++ rest)) = some (.jnull, rest)
  rw [parseCore, skipWs_cons _ (by decide)]
  simp [stripPre, List.isPrefixOf]

lemma parseCore_value_num (fuel : Nat) (c : Char) (tail : List Char)
    (h : c.toNat = 45 ∨ (48 ≤ c.toNat ∧ c.toNat ≤ 57)) :
    parseCore (fuel+1) .value (c :: tail) = parseNum (c :: tail) := by
  have hws : jsonWs c = false := by
    simp only [jsonWs, Bool.or_eq_false_iff, decide_eq_false_iff_not]
    omega
  rw [parseCore, skipWs_cons tail hws]
  dsimp only
  rw [if_neg (char_ne_code (show c.toNat ≠ ('\x7b' : Char).toNat by rw [show ('\x7b' : Char).toNat = 123 from rfl]; omega)),
    if_neg (char_ne_code (show c.toNat ≠ ('[' : Char).toNat by rw [show ('[' : Char).toNat = 91 from rfl]; omega)),
    if_neg (char_ne_code (show c.toNat ≠ ('\"' : Char).toNat by rw [show ('\"' : Char).toNat = 34 from rfl]; omega)),
    if_neg (char_ne_code (show c.toNat ≠ ('t' : Char).toNat by rw [show ('t' : Char).toNat = 116 from rfl]; omega)),
    if_neg (char_ne_code (show c.toNat ≠ ('f' : Char).toNat by rw [show ('f' : Char).toNat = 102 from rfl]; omega)),
    if_neg (char_ne_code (show c.toNat ≠ ('n' : Char).toNat by rw [show ('n' : Char).toNat = 110 from rfl]; omega))]

/-! ### Claim C5: number round trip -/

lemma natDigitsAux_fuel_inv (n : Nat) :
    ∀ (f1 f2 : Nat), n < f1 → n < f2 → natDigitsAux f1 n = natDigitsAux f2 n := by
  induction n using Nat.strong_induction_on with
  | _ n ih =>
    intro f1 f2 h1 h2
    obtain ⟨g1, rfl⟩ : ∃ g, f1 = g + 1 := ⟨f1 - 1, by omega⟩
    obtain ⟨g2, rfl⟩ : ∃ g, f2 = g + 1 := ⟨f2 - 1, by omega⟩
    rw [natDigitsAux, natDigitsAux]
    by_cases hn : n < 10
    · rw [if_pos hn, if_pos hn]
    · rw [if_neg hn, if_neg hn, ih (n / 10) (by omega) g1 g2 (by omega) (by omega)]

lemma natChars_eq (n : Nat) :
    natChars n = if n < 10 then [digitChar n]
      else natChars (n / 10) ++ [digitChar (n % 10)] := by
  rw [natChars, natDigitsAux]
  by_cases h : n < 10
  · rw [if_pos h, if_pos h]
  · rw [if_neg h, if_neg h, natChars,
      natDigitsAux_fuel_inv (n / 10) n (n / 10 + 1) (by omega) (by omega)]

lemma natChars_ne_nil (n : Nat) : natChars n ≠ [] := by
  rw [natChars_eq]
  by_cases h : n < 10
  · rw [if_pos h]; exact List.cons_ne_nil _ _
  · rw [if_neg h]; simp

lemma natChars_all_digits (n : Nat) :
    ∀ c ∈ natChars n, 48 ≤ c.toNat ∧ c.toNat ≤ 57 := by
  induction n using Nat.strong_induction_on with
  | _ n ih =>
    intro c hc
    rw [natChars_eq] at hc
    by_cases h : n < 10
    · rw [if_pos h] at hc
      rcases List.mem_singleton.mp hc with rfl
      rw [digitChar_toNat h]
      omega
    · rw [if_neg h] at hc
      rcases List.mem_append.mp hc with hc | hc
      · exact ih (n / 10) (by omega) c hc
      · rcases List.mem_singleton.mp hc with rfl
        rw [digitChar_toNat (Nat.mod_lt n (by omega))]
        omega

lemma natChars_head_ne_zero (n : Nat) (hn : n ≠ 0) :
    ∀ c tail, natChars n = c :: tail → c.toNat ≠ 48 := by
  induction n using Nat.strong_induction_on with
  | _ n ih =>
    intro c tail hc
    rw [natChars_eq] at hc
    by_cases h : n < 10
    · rw [if_pos h] at hc
      injection hc with h1 _
      subst h1
      rw [digitChar_toNat h]
      omega
    · rw [if_neg h] at hc
      rcases hq : natChars (n / 10) with _ | ⟨d, ds⟩
      · exact absurd hq (natChars_ne_nil _)
      · rw [hq, List.cons_append] at hc
        injection hc with h1 _
        subst h1
        exact ih (n / 10) (by omega) (by omega) _ ds hq

lemma digitSpan_of_all_digits :
    ∀ (d rest : List Char), (∀ c ∈ d, 48 ≤ c.toNat ∧ c.toNat ≤ 57) →
    (∀ c tail, rest = c :: tail → isDigitCh c = false) →
    digitSpan (d ++ rest) = (d, rest) := by
  intro d
  induction d with
  | nil =>
    intro rest _ hrest
    rcases rest with _ | ⟨c, tail⟩
    · rfl
    · rw [List.nil_append, digitSpan, hrest c tail rfl]
      rfl
  | cons c cs ih =>
    intro rest hd hrest
    have hc := hd c (List.mem_cons_self c cs)
    rw [List.cons_append, digitSpan,
      if_pos (show isDigitCh c = true by
        rw [isDigitCh]
        simp only [decide_eq_true_eq]
        omega)]
    rw [ih rest (fun x hx => hd x (List.mem_cons_of_mem c hx)) hrest]

lemma digitsVal_append_singleton (l : List Char) (c : Char) :
    digitsVal (l ++ [c]) = 10 * digitsVal l + (c.toNat - 48) := by
  rw [digitsVal, digitsVal, List.foldl_append]
  simp [Nat.mul_comm]

lemma digitsVal_natChars (n : Nat) : digitsVal (natChars n) = n := by
  induction n using Nat.strong_induction_on with
  | _ n ih =>
    rw [natChars_eq]
    by_cases h : n < 10
    · rw [if_pos h]
      show digitsVal ([] ++ [digitChar n]) = n
      rw [digitsVal_append_singleton, digitChar_toNat h]
      simp [digitsVal]
    · rw [if_neg h, digitsVal_append_singleton, ih (n / 10) (by omega),
        digitChar_toNat (Nat.mod_lt n (by omega))]
      omega

lemma numSafe_head (c : Char) (tail : List Char) (hsafe : numSafe (c :: tail) = true) :
    isDigitCh c = false ∧ numTailOk (c :: tail) = true := by
  rw [numSafe, Bool.not_eq_eq_eq_not, Bool.not_true] at hsafe
  simp only [Bool.or_eq_false_iff] at hsafe
  obtain ⟨⟨⟨h1, h2⟩, h3⟩, h4⟩ := hsafe
  refine ⟨h4, ?_⟩
  rw [numTailOk, Bool.not_eq_eq_eq_not, Bool.not_true]
  simp only [Bool.or_eq_false_iff]
  exact ⟨⟨h1, h2⟩, h3⟩

lemma numTailOk_of_numSafe (rest : List Char) (hsafe : numSafe rest = true) :
    numTailOk rest = true := by
  rcases rest with _ | ⟨c, tail⟩
  · rfl
  · exact (numSafe_head c tail hsafe).2

lemma parseNatNum_natChars (m : Nat) (rest : List Char) (hsafe : numSafe rest = true) :
    parseNatNum (natChars m ++ rest) = some (m, rest) := by
  have hspan : digitSpan (natChars m ++ rest) = (natChars m, rest) :=
    digitSpan_of_all_digits (natChars m) rest (natChars_all_digits m)
      (fun c tail h => (numSafe_head c tail (h ▸ hsafe)).1)
  rcases hnc : natChars m with _ | ⟨d, ds⟩
  · exact absurd hnc (natChars_ne_nil m)
  · rw [hnc] at hspan
    rw [parseNatNum, hspan]
    dsimp only
    have hlead : ¬ (d = '0' ∧ ds ≠ []) := by
      rintro ⟨rfl, hds⟩
      by_cases hm : m < 10
      · rw [natChars_eq, if_pos hm] at hnc
        injection hnc with _ h2
        exact hds h2.symm
      · have hm0 : m ≠ 0 := by omega
        exact natChars_head_ne_zero m hm0 _ ds hnc rfl
    rw [if_neg hlead, if_pos (numTailOk_of_numSafe rest hsafe), ← hnc, digitsVal_natChars]

lemma parseNum_intChars (n : Int) (rest : List Char) (hsafe : numSafe rest = true) :
    parseNum (intChars n ++ rest) = some (.jnum n, rest) := by
  rcases n with m | m
  · have hpn := parseNatNum_natChars m rest hsafe
    rw [intChars]
    rcases hnc : natChars m with _ | ⟨d, ds⟩
    · exact absurd hnc (natChars_ne_nil m)
    · have hd : 48 ≤ d.toNat ∧ d.toNat ≤ 57 :=
        natChars_all_digits m d (by rw [hnc]; exact List.mem_cons_self d ds)
      have hneg : d ≠ '-' := char_ne_code (by
        rw [show ('-' : Char).toNat = 45 from rfl]; omega)
      rw [hnc] at hpn
      rw [List.cons_append, parseNum]
      rw [if_neg hneg, ← List.cons_append, hpn]
      rfl
  · have hpn := parseNatNum_natChars (m + 1) rest hsafe
    rw [intChars, List.cons_append, parseNum]
    rw [if_pos rfl, hpn]
    rfl

/-! ### Claim C5: string round trip -/

lemma hexVal_hexChar (d : Nat) (h : d < 16) : hexVal (hexChar d) = some d := by
  rw [hexChar]
  by_cases hd : d < 10
  · rw [if_pos hd, hexVal, toNat_ofNat_small _ (by omega)]
    rw [if_pos (by omega : 48 ≤ 48 + d ∧ 48 + d ≤ 57)]
    congr 1
    omega
  · rw [if_neg hd, hexVal, toNat_ofNat_small _ (by omega)]
    rw [if_neg (by omega : ¬ (48 ≤ 87 + d ∧ 87 + d ≤ 57)),
      if_pos (by omega : 97 ≤ 87 + d ∧ 87 + d ≤ 102)]
    congr 1
    omega

lemma parseStringBody_escString : ∀ (cs rest : List Char),
    parseStringBody (escString cs ++ '\"' :: rest) = some (cs, rest) := by
  intro cs
  induction cs with
  | nil =>
    intro rest
    show parseStringBody (List.flatMap [] escChar ++ '\"' :: rest) = some ([], rest)
    rw [List.flatMap_nil, List.nil_append, parseStringBody.eq_def]
    simp only [Char.reduceEq, reduceIte]
  | cons c cs ih =>
    intro rest
    show parseStringBody (List.flatMap (c :: cs) escChar ++ '\"' :: rest) = some (c :: cs, rest)
    rw [List.flatMap_cons, List.append_assoc]
    by_cases hq : c = '\"'
    · subst hq
      rw [show escChar '\"' = ['\\', '\"'] from rfl]
      simp only [List.cons_append, List.nil_append]
      rw [parseStringBody.eq_def]
      simp only [Char.reduceEq, reduceIte]
      rw [show List.flatMap cs escChar = escString cs from rfl, ih rest]
      rfl
    · by_cases hb : c = '\\'
      · subst hb
        rw [show escChar '\\' = ['\\', '\\'] from rfl]
        simp only [List.cons_append, List.nil_append]
        rw [parseStringBody.eq_def]
        simp only [Char.reduceEq, reduceIte]
        rw [show List.flatMap cs escChar = escString cs from rfl, ih rest]
        rfl
      · by_cases hctl : c.toNat < 32
        · rw [show escChar c = ['\\', 'u', '0', '0',
              hexChar (c.toNat / 16), hexChar (c.toNat % 16)] from by
            rw [escChar, if_neg hq, if_neg hb, if_pos hctl]]
          simp only [List.cons_append, List.nil_append]
          simp only [parseStringBody, Char.reduceEq, reduceIte]
          rw [show hexVal '0' = some 0 from rfl,
            hexVal_hexChar (c.toNat / 16) (by omega),
            hexVal_hexChar (c.toNat % 16) (by omega)]
          simp only [Char.reduceEq, if_true, if_false, reduceIte]
          rw [show ((0 * 16 + 0) * 16 + c.toNat / 16) * 16 + c.toNat % 16 = c.toNat from by
            omega]
          rw [if_pos (Or.inl (by omega : c.toNat < 55296) : Nat.isValidChar c.toNat),
            Char.ofNat_toNat,
            show (List.flatMap cs escChar : List Char) = escString cs from rfl, ih rest]
          rfl
        · rw [show escChar c = [c] from by rw [escChar, if_neg hq, if_neg hb, if_neg hctl]]
          simp only [List.cons_append, List.nil_append]
          rw [parseStringBody.eq_def]
          simp only [Char.reduceEq, reduceIte]
          rw [if_neg hq, if_neg hb, if_neg hctl,
            show (List.flatMap cs escChar : List Char) = escString cs from rfl, ih rest]
          rfl

/-! ### Claim C5: structural lemmas on objects, arrays, and serial forms -/

lemma string_mk_data (s : String) : String.mk s.data = s := rfl

lemma jlookup_none_iff : ∀ (o : JObj) (k : String), jlookup o k = none ↔ k ∉ jkeys o
  | .onil, k => by simp [jlookup, jkeys]
  | .ocons k0 v0 rest, k => by
    rw [jlookup, jkeys]
    by_cases h : k0 = k
    · subst h
      simp
    · rw [if_neg h, jlookup_none_iff rest k]
      simp [List.mem_cons, Ne.symm h]
termination_by structural o => o

lemma jinsert_fresh : ∀ (o : JObj) (k : String) (v : JVal), jlookup o k = none →
    jinsert o k v = oappend o (.ocons k v .onil)
  | .onil, k, v, _ => by rw [jinsert, oappend]
  | .ocons k0 v0 rest, k, v, h => by
    rw [jlookup] at h
    by_cases hk : k0 = k
    · rw [if_pos hk] at h
      exact absurd h (Option.some_ne_none v0)
    · rw [if_neg hk] at h
      rw [jinsert, if_neg hk, oappend, jinsert_fresh rest k v h]
termination_by structural o => o

lemma oappend_assoc : ∀ (a b c : JObj), oappend (oappend a b) c = oappend a (oappend b c)
  | .onil, _, _ => by rw [oappend, oappend]
  | .ocons k v rest, b, c => by
    rw [oappend, oappend, oappend, oappend_assoc rest b c]
termination_by structural a => a

lemma jkeys_oappend : ∀ (a b : JObj), jkeys (oappend a b) = jkeys a ++ jkeys b
  | .onil, b => by rw [oappend, jkeys, List.nil_append]
  | .ocons k v rest, b => by
    rw [oappend, jkeys, jkeys, jkeys_oappend rest b, List.cons_append]
termination_by structural a => a

lemma arrSnoc_eq : ∀ (a : JArr) (v : JVal), arrSnoc a v = aappend a (.acons v .anil)
  | .anil, v => by rw [arrSnoc, aappend]
  | .acons w rest, v => by rw [arrSnoc, aappend, arrSnoc_eq rest v]
termination_by structural a => a

lemma aappend_assoc : ∀ (a b c : JArr), aappend (aappend a b) c = aappend a (aappend b c)
  | .anil, _, _ => by rw [aappend, aappend]
  | .acons v rest, b, c => by rw [aappend, aappend, aappend, aappend_assoc rest b c]
termination_by structural a => a

lemma jkeysNodup_iff : ∀ (o : JObj), jkeysNodup o = true ↔ (jkeys o).Nodup
  | .onil => by simp [jkeysNodup, jkeys]
  | .ocons k v rest => by
    rw [jkeysNodup, jkeys, List.nodup_cons, Bool.and_eq_true, Option.isNone_iff_eq_none,
      jlookup_none_iff, jkeysNodup_iff rest]
termination_by structural o => o

lemma numSafe_close_brace (X : List Char) : numSafe ('\x7d' :: X) = true := by
  rw [numSafe]; decide

lemma numSafe_close_bracket (X : List Char) : numSafe (']' :: X) = true := by
  rw [numSafe]; decide

lemma numSafe_comma (X : List Char) : numSafe (',' :: X) = true := by
  rw [numSafe]; decide

lemma numSafe_serOTail (o : JObj) (X : List Char) :
    numSafe (serOTail o ++ '\x7d' :: X) = true := by
  rcases o with _ | ⟨k, v, o2⟩
  · rw [serOTail, List.nil_append]
    exact numSafe_close_brace X
  · rw [serOTail, List.cons_append]
    exact numSafe_comma _

lemma numSafe_serATail (a : JArr) (X : List Char) :
    numSafe (serATail a ++ ']' :: X) = true := by
  rcases a with _ | ⟨v, a2⟩
  · rw [serATail, List.nil_append]
    exact numSafe_close_bracket X
  · rw [serATail, List.cons_append]
    exact numSafe_comma _

lemma serV_head_info (v : JVal) :
    ∃ c t, serV v = c :: t ∧ jsonWs c = false ∧ c.toNat ≠ 93 ∧ c.toNat ≠ 125 := by
  rcases v with _ | b | n | s | a | o
  · exact ⟨'n', _, rfl, by decide, by decide, by decide⟩
  · rcases b with _ | _
    · exact ⟨'f', _, rfl, by decide, by decide, by decide⟩
    · exact ⟨'t', _, rfl, by decide, by decide, by decide⟩
  · rcases n with m | m
    · rcases hnc : natChars m with _ | ⟨d, ds⟩
      · exact absurd hnc (natChars_ne_nil m)
      · have hd : 48 ≤ d.toNat ∧ d.toNat ≤ 57 :=
          natChars_all_digits m d (by rw [hnc]; exact List.mem_cons_self d ds)
        refine ⟨d, ds, ?_, ?_, by omega, by omega⟩
        · rw [show serV (.jnum (Int.ofNat m)) = natChars m from rfl, hnc]
        · simp only [jsonWs, Bool.or_eq_false_iff, decide_eq_false_iff_not]
          omega
    · exact ⟨'-', _, rfl, by decide, by decide, by decide⟩
  · exact ⟨'\"', _, rfl, by decide, by decide, by decide⟩
  · exact ⟨'[', _, rfl, by decide, by decide, by decide⟩
  · exact ⟨'\x7b', _, rfl, by decide, by decide, by decide⟩

lemma parseCore_obj0_close (fuel : Nat) (rest : List Char) :
    parseCore (fuel+1) .obj0 ('\x7d' :: rest) = some (.jobj .onil, rest) := by
  rw [parseCore, skipWs_cons _ (by decide)]
  rfl

lemma parseCore_obj0_open (fuel : Nat) (c : Char) (cs : List Char)
    (hws : jsonWs c = false) (hne : c ≠ '\x7d') :
    parseCore (fuel+1) .obj0 (c :: cs) = parseCore fuel (.objMem .onil) (c :: cs) := by
  rw [parseCore, skipWs_cons _ hws]
  dsimp only
  rw [if_neg hne]

lemma parseCore_arr0_close (fuel : Nat) (rest : List Char) :
    parseCore (fuel+1) .arr0 (']' :: rest) = some (.jarr .anil, rest) := by
  rw [parseCore, skipWs_cons _ (by decide)]
  rfl

lemma parseCore_arr0_open (fuel : Nat) (c : Char) (cs : List Char)
    (hws : jsonWs c = false) (hne : c ≠ ']') :
    parseCore (fuel+1) .arr0 (c :: cs) = parseCore fuel (.arrMem .anil) (c :: cs) := by
  rw [parseCore, skipWs_cons _ hws]
  dsimp only
  rw [if_neg hne]

/-! ### Claim C5: the serializer/parser round trip -/

mutual
theorem serV_parse_roundtrip :
    ∀ (v : JVal) (fuel : Nat) (rest : List Char), szV v ≤ fuel →
      numSafe rest = true → jwfV v = true →
      parseCore fuel .value (serV v ++ rest) = some (v, rest)
  | .jnull, fuel, rest, hsz, _, _ => by
    rw [szV] at hsz
    obtain ⟨g, rfl⟩ : ∃ g, fuel = g + 1 := ⟨fuel - 1, by omega⟩
    exact parseCore_value_null g rest
  | .jbool true, fuel, rest, hsz, _, _ => by
    rw [szV] at hsz
    obtain ⟨g, rfl⟩ : ∃ g, fuel = g + 1 := ⟨fuel - 1, by omega⟩
    exact parseCore_value_true g rest
  | .jbool false, fuel, rest, hsz, _, _ => by
    rw [szV] at hsz
    obtain ⟨g, rfl⟩ : ∃ g, fuel = g + 1 := ⟨fuel - 1, by omega⟩
    exact parseCore_value_false g rest
  | .jnum n, fuel, rest, hsz, hsafe, _ => by
    rw [szV] at hsz
    obtain ⟨g, rfl⟩ : ∃ g, fuel = g + 1 := ⟨fuel - 1, by omega⟩
    rcases n with m | m
    · rcases hnc : natChars m with _ | ⟨d, ds⟩
      · exact absurd hnc (natChars_ne_nil m)
      · have hd := natChars_all_digits m d (by rw [hnc]; exact List.mem_cons_self d ds)
        have hser : serV (.jnum (Int.ofNat m)) = d :: ds := by
          rw [show serV (.jnum (Int.ofNat m)) = natChars m from rfl, hnc]
        rw [hser, List.cons_append, parseCore_value_num g d (ds ++ rest) (Or.inr hd),
          ← List.cons_append, ← hser,
          show serV (.jnum (Int.ofNat m)) = intChars (Int.ofNat m) from rfl]
        exact parseNum_intChars (Int.ofNat m) rest hsafe
    · rw [show serV (.jnum (Int.negSucc m)) = '-' :: natChars (m + 1) from rfl,
        List.cons_append, parseCore_value_num g '-' _ (Or.inl (by decide)),
        ← List.cons_append,
        show ('-' :: natChars (m + 1) : List Char) = intChars (Int.negSucc m) from rfl]
      exact parseNum_intChars (Int.negSucc m) rest hsafe
  | .jstr s, fuel, rest, hsz, _, _ => by
    rw [szV] at hsz
    obtain ⟨g, rfl⟩ : ∃ g, fuel = g + 1 := ⟨fuel - 1, by omega⟩
    rw [show serV (.jstr s) = '\"' :: (escString s.data ++ ['\"']) from rfl,
      List.cons_append, parseCore_value_str, List.append_assoc, List.singleton_append,
      parseStringBody_escString s.data rest]
    rfl
  | .jarr a, fuel, rest, hsz, _, hwf => by
    rw [szV] at hsz
    obtain ⟨g, rfl⟩ : ∃ g, fuel = g + 1 := ⟨fuel - 1, by omega⟩
    rw [show serV (.jarr a) = '[' :: (serAIn a ++ [']']) from rfl, List.cons_append,
      parseCore_value_arr, List.append_assoc, List.singleton_append]
    obtain ⟨g2, rfl⟩ : ∃ g2, g = g2 + 1 := ⟨g - 1, by omega⟩
    rcases a with _ | ⟨v, a2⟩
    · rw [show serAIn .anil = ([] : List Char) from rfl, List.nil_append,
        parseCore_arr0_close]
    · obtain ⟨c, t, hserv, hws, hne93, _⟩ := serV_head_info v
      have hshape : serAIn (.acons v a2) ++ ']' :: rest =
          c :: (t ++ (serATail a2 ++ ']' :: rest)) := by
        rw [serAIn, hserv]
        simp [List.append_assoc]
      rw [hshape, parseCore_arr0_open g2 c _ hws
        (char_ne_code (show c.toNat ≠ (']' : Char).toNat by
          rw [show ((']' : Char).toNat) = 93 from rfl]; exact hne93)), ← hshape,
        serA_parse_roundtrip (.acons v a2) .anil g2 rest (by rw [szA] at hsz ⊢; omega)
          (fun h => JArr.noConfusion h) (by rw [jwfV] at hwf; exact hwf)]
      rfl
  | .jobj o, fuel, rest, hsz, _, hwf => by
    rw [szV] at hsz
    obtain ⟨g, rfl⟩ : ∃ g, fuel = g + 1 := ⟨fuel - 1, by omega⟩
    rw [show serV (.jobj o) = '\x7b' :: (serOIn o ++ ['\x7d']) from rfl, List.cons_append,
      parseCore_value_obj, List.append_assoc, List.singleton_append]
    obtain ⟨g2, rfl⟩ : ∃ g2, g = g2 + 1 := ⟨g - 1, by omega⟩
    rcases o with _ | ⟨k, v, o2⟩
    · rw [show serOIn .onil = ([] : List Char) from rfl, List.nil_append,
        parseCore_obj0_close]
    · have hshape : serOIn (.ocons k v o2) ++ '\x7d' :: rest =
          '\"' :: ((escString k.data ++ '\"' :: (':' :: serV v ++ serOTail o2)) ++
            '\x7d' :: rest) := by
        rw [serOIn, serKey]
        simp [List.append_assoc]
      rw [hshape, parseCore_obj0_open g2 '\"' _ (by decide) (by decide), ← hshape]
      have hwf2 := hwf
      rw [jwfV, Bool.and_eq_true] at hwf2
      rw [serO_parse_roundtrip (.ocons k v o2) .onil g2 rest (by rw [szO] at hsz ⊢; omega)
        (fun h => JObj.noConfusion h) hwf2.2
        (by rw [jkeys, List.nil_append]; exact (jkeysNodup_iff _).mp hwf2.1)]
      rfl

theorem serA_parse_roundtrip :
    ∀ (a : JArr) (acc : JArr) (fuel : Nat) (rest : List Char), szA a ≤ fuel →
      a ≠ .anil → jwfA a = true →
      parseCore fuel (.arrMem acc) (serAIn a ++ ']' :: rest) =
        some (.jarr (aappend acc a), rest)
  | .anil, _, _, _, _, hne, _ => absurd rfl hne
  | .acons v a2, acc, fuel, rest, hsz, _, hwf => by
    rw [szA] at hsz
    rw [jwfA, Bool.and_eq_true] at hwf
    obtain ⟨g, rfl⟩ : ∃ g, fuel = g + 1 := ⟨fuel - 1, by omega⟩
    have hl : serAIn (.acons v a2) ++ ']' :: rest =
        serV v ++ (serATail a2 ++ ']' :: rest) := by
      rw [serAIn, List.append_assoc]
    rw [hl, parseCore,
      serV_parse_roundtrip v g _ (by omega) (numSafe_serATail a2 rest) hwf.1]
    dsimp only
    rcases a2 with _ | ⟨w, a3⟩
    · rw [show serATail .anil = ([] : List Char) from rfl, List.nil_append,
        skipWs_cons _ (by decide)]
      dsimp only
      rw [if_neg (by decide), if_pos rfl, arrSnoc_eq]
    · rw [show serATail (.acons w a3) = ',' :: (serV w ++ serATail a3) from rfl,
        List.cons_append, skipWs_cons _ (by decide)]
      dsimp only
      rw [if_pos rfl,
        show (serV w ++ serATail a3 : List Char) = serAIn (.acons w a3) from rfl,
        serA_parse_roundtrip (.acons w a3) (arrSnoc acc v) g rest (by omega)
          (fun h => JArr.noConfusion h) hwf.2,
        arrSnoc_eq, aappend_assoc]
      rfl

theorem serO_parse_roundtrip :
    ∀ (o : JObj) (acc : JObj) (fuel : Nat) (rest : List Char), szO o ≤ fuel →
      o ≠ .onil → jwfO o = true → (jkeys acc ++ jkeys o).Nodup →
      parseCore fuel (.objMem acc) (serOIn o ++ '\x7d' :: rest) =
        some (.jobj (oappend acc o), rest)
  | .onil, _, _, _, _, hne, _, _ => absurd rfl hne
  | .ocons k v o2, acc, fuel, rest, hsz, _, hwf, hnd => by
    rw [szO] at hsz
    rw [jwfO, Bool.and_eq_true] at hwf
    obtain ⟨g, rfl⟩ : ∃ g, fuel = g + 1 := ⟨fuel - 1, by omega⟩
    have hshape : serOIn (.ocons k v o2) ++ '\x7d' :: rest =
        '\"' :: (escString k.data ++ '\"' ::
          (':' :: (serV v ++ (serOTail o2 ++ '\x7d' :: rest)))) := by
      rw [serOIn, serKey]
      simp [List.append_assoc]
    rw [hshape, parseCore, skipWs_cons _ (by decide)]
    dsimp only
    rw [if_pos rfl, parseStringBody_escString k.data
      (':' :: (serV v ++ (serOTail o2 ++ '\x7d' :: rest)))]
    dsimp only
    rw [skipWs_cons _ (by decide)]
    dsimp only
    rw [if_pos rfl,
      serV_parse_roundtrip v g _ (by omega) (numSafe_serOTail o2 rest) hwf.1]
    dsimp only
    rw [string_mk_data]
    have hknotin : jlookup acc k = none := by
      rw [jlookup_none_iff]
      have hnd' := hnd
      rw [jkeys] at hnd'
      have hdisj := List.disjoint_of_nodup_append hnd'
      intro hmem
      exact hdisj hmem (List.mem_cons_self k _)
    rw [jinsert_fresh acc k v hknotin]
    rcases o2 with _ | ⟨k2, v2, o3⟩
    · rw [show serOTail .onil = ([] : List Char) from rfl, List.nil_append,
        skipWs_cons _ (by decide)]
      dsimp only
      rw [if_neg (by decide), if_pos rfl]
    · rw [show serOTail (.ocons k2 v2 o3) =
          ',' :: (serKey k2 ++ ':' :: serV v2 ++ serOTail o3) from rfl,
        List.cons_append, skipWs_cons _ (by decide)]
      dsimp only
      rw [if_pos rfl,
        show (serKey k2 ++ ':' :: serV v2 ++ serOTail o3 : List Char) =
          serOIn (.ocons k2 v2 o3) from rfl]
      have hnd2 : (jkeys (oappend acc (.ocons k v .onil)) ++
          jkeys (.ocons k2 v2 o3)).Nodup := by
        rw [jkeys_oappend, show jkeys (JObj.ocons k v .onil) = [k] from rfl]
        have hnd' := hnd
        rw [show jkeys (JObj.ocons k v (.ocons k2 v2 o3)) =
          k :: jkeys (JObj.ocons k2 v2 o3) from rfl, List.append_cons] at hnd'
        exact hnd'
      rw [serO_parse_roundtrip (.ocons k2 v2 o3) (oappend acc (.ocons k v .onil)) g rest
        (by omega) (fun h => JObj.noConfusion h) hwf.2 hnd2,
        oappend_assoc]
      rfl
end

/-! ### Claim C5: fuel bound and `json.loads` round trip -/

mutual
theorem szV_le_len : ∀ (v : JVal), szV v ≤ 3 * (serV v).length
  | .jnull => by rw [szV]; decide
  | .jbool true => by rw [szV]; decide
  | .jbool false => by rw [szV]; decide
  | .jnum n => by
    rw [szV]
    obtain ⟨c, t, hser, _, _, _⟩ := serV_head_info (.jnum n)
    rw [hser, List.length_cons]
    omega
  | .jstr s => by
    rw [szV, show serV (.jstr s) = '\"' :: (escString s.data ++ ['\"']) from rfl,
      List.length_cons]
    omega
  | .jarr a => by
    have h := szA_le_in a
    rw [szV, show serV (.jarr a) = '[' :: (serAIn a ++ [']']) from rfl, List.length_cons,
      List.length_append, List.length_singleton]
    omega
  | .jobj o => by
    have h := szO_le_in o
    rw [szV, show serV (.jobj o) = '\x7b' :: (serOIn o ++ ['\x7d']) from rfl,
      List.length_cons, List.length_append, List.length_singleton]
    omega

theorem szA_le_in : ∀ (a : JArr), szA a ≤ 3 * (serAIn a).length + 1
  | .anil => by rw [szA]; omega
  | .acons v a2 => by
    have h1 := szV_le_len v
    have h2 := szA_le_tail a2
    rw [szA, show serAIn (.acons v a2) = serV v ++ serATail a2 from rfl, List.length_append]
    omega

theorem szA_le_tail : ∀ (a : JArr), szA a ≤ 3 * (serATail a).length
  | .anil => by rw [szA]; omega
  | .acons v a2 => by
    have h1 := szV_le_len v
    have h2 := szA_le_tail a2
    rw [szA, show serATail (.acons v a2) = ',' :: (serV v ++ serATail a2) from rfl,
      List.length_cons, List.length_append]
    omega

theorem szO_le_in : ∀ (o : JObj), szO o ≤ 3 * (serOIn o).length + 1
  | .onil => by rw [szO]; omega
  | .ocons k v o2 => by
    have h1 := szV_le_len v
    have h2 := szO_le_tail o2
    rw [szO, show serOIn (.ocons k v o2) = serKey k ++ ':' :: serV v ++ serOTail o2 from rfl]
    simp only [List.length_append, List.length_cons]
    omega

theorem szO_le_tail : ∀ (o : JObj), szO o ≤ 3 * (serOTail o).length
  | .onil => by rw [szO]; omega
  | .ocons k v o2 => by
    have h1 := szV_le_len v
    have h2 := szO_le_tail o2
    have h3 : 1 ≤ (serKey k).length := by
      rw [serKey]
      simp
    rw [szO, show serOTail (.ocons k v o2) =
        ',' :: serKey k ++ ':' :: serV v ++ serOTail o2 from rfl]
    simp only [List.length_append, List.length_cons]
    omega
end

/-- `json.loads` inverts the canonical serialization of any well-formed
value. -/
theorem loadsJson_serV (v : JVal) (hwf : jwfV v = true) : loadsJson (serV v) = .ok v := by
  rw [loadsJson]
  have h := serV_parse_roundtrip v (parseFuel (serV v)) []
    (by have := szV_le_len v; rw [parseFuel]; omega) rfl hwf
  rw [List.append_nil] at h
  rw [h]
  rfl

/-- The repair loop is the identity on objects that already carry every
required field. -/
lemma fillFields_id : ∀ (fs : List String) (o : JObj),
    (∀ f ∈ fs, (jlookup o f).isSome = true) → fillFields fs o = o := by
  intro fs
  induction fs with
  | nil => intro o _; rfl
  | cons g gs ih =>
    intro o h
    rw [fillFields, if_pos (h g (List.mem_cons_self g gs))]
    exact ih o (fun f hf => h f (List.mem_cons_of_mem g hf))

/-! ### Claim C5: fence extraction on the wrapped text -/

/-- The claim side of the refinement: the spec's fenced-JSON-with-
language-tag wrapping of a JSON text (open fence with the `json` tag, a
newline, the JSON text, a newline, and the closing fence).  This
definition follows the spec's words, to be compared with the
source-derived `extractCandidate`/`parseResponse` pipeline. -/
def wrapJsonFence (s : List Char) : List Char :=
  fenceJson ++ '\n' :: s ++ '\n' :: fenceMark

lemma isPrefixOf_append_self : ∀ (l r : List Char), l.isPrefixOf (l ++ r) = true := by
  intro l
  induction l with
  | nil => intro r; simp [List.isPrefixOf]
  | cons c cs ih =>
    intro r
    rw [List.cons_append, List.isPrefixOf]
    simp [ih r]

lemma splitFirst_prefix_self (sep R : List Char) (hsep : sep ≠ []) :
    splitFirst sep (sep ++ R) = some ([], R) := by
  rcases sep with _ | ⟨c, cs⟩
  · exact absurd rfl hsep
  · rw [List.cons_append, splitFirst, ← List.cons_append, if_pos (isPrefixOf_append_self _ R)]
    rw [List.drop_left]

lemma containsSub_cons_eq (sep : List Char) (c : Char) (cs : List Char) :
    containsSub sep (c :: cs) = (sep.isPrefixOf (c :: cs) || containsSub sep cs) := by
  rw [containsSub, containsSub, splitFirst]
  by_cases h : sep.isPrefixOf (c :: cs)
  · rw [if_pos h, h]
    rfl
  · have h' : sep.isPrefixOf (c :: cs) = false := by
      rw [Bool.eq_false_iff]
      exact h
    rw [if_neg h, h', Bool.false_or]
    rcases hs : splitFirst sep cs with _ | p
    · rfl
    · rfl

lemma containsSub_ticks (X : List Char) :
    containsSub fenceMark ('\x60' :: '\x60' :: '\x60' :: X) = true := by
  rw [containsSub, splitFirst, if_pos]
  · rfl
  · rw [show fenceMark = ['\x60', '\x60', '\x60'] from rfl]
    simp [List.isPrefixOf]

lemma fence_prefix_cases (d : Char) (X : List Char)
    (h : fenceMark.isPrefixOf (d :: X) = true) :
    ∃ e f Y, X = e :: f :: Y ∧ d = '\x60' ∧ e = '\x60' ∧ f = '\x60' := by
  rcases X with _ | ⟨e, X2⟩
  · rw [show fenceMark = ['\x60', '\x60', '\x60'] from rfl] at h
    simp [List.isPrefixOf] at h
  · rcases X2 with _ | ⟨f, Y⟩
    · rw [show fenceMark = ['\x60', '\x60', '\x60'] from rfl] at h
      simp [List.isPrefixOf] at h
    · rw [show fenceMark = ['\x60', '\x60', '\x60'] from rfl] at h
      simp [List.isPrefixOf] at h
      exact ⟨e, f, Y, rfl, h.1.symm, h.2.1.symm, h.2.2.symm⟩

lemma fence_prefix_absurd (c : Char) (a' : List Char)
    (hnc : containsSub fenceMark (c :: a') = false)
    (hlast : ∀ t, (c :: a') = t ++ ['\x60'] → False)
    (hpre : fenceMark.isPrefixOf (c :: (a' ++ fenceMark)) = true) : False := by
  obtain ⟨e, f, Y, hX, h1, h2, h3⟩ := fence_prefix_cases c _ hpre
  subst h1
  rcases a' with _ | ⟨d, a''⟩
  · exact hlast [] rfl
  · rcases a'' with _ | ⟨d2, a'''⟩
    · rw [List.cons_append, List.nil_append] at hX
      injection hX with hde _
      rw [h2] at hde
      subst hde
      exact hlast ['\x60'] rfl
    · rw [List.cons_append, List.cons_append] at hX
      injection hX with hde hX2
      injection hX2 with hd2f _
      rw [h2] at hde
      rw [h3] at hd2f
      subst hde
      subst hd2f
      rw [containsSub_ticks] at hnc
      exact Bool.noConfusion hnc

lemma contains_tail_false (sep : List Char) (c : Char) (cs : List Char)
    (h : containsSub sep (c :: cs) = false) : containsSub sep cs = false := by
  rw [containsSub_cons_eq, Bool.or_eq_false_iff] at h
  exact h.2

lemma last_shift (c : Char) (a' : List Char)
    (h : ∀ t, (c :: a') = t ++ ['\x60'] → False) :
    ∀ t, a' = t ++ ['\x60'] → False :=
  fun t ht => h (c :: t) (by rw [ht, List.cons_append])

lemma splitFirst_fence_at_end : ∀ (a : List Char),
    containsSub fenceMark a = false →
    (∀ t, a = t ++ ['\x60'] → False) →
    splitFirst fenceMark (a ++ fenceMark) = some (a, []) := by
  intro a
  induction a with
  | nil =>
    intro _ _
    rw [List.nil_append]
    decide
  | cons c a' ih =>
    intro hnc hlast
    rw [List.cons_append, splitFirst]
    by_cases hpre : fenceMark.isPrefixOf (c :: (a' ++ fenceMark))
    · exact absurd hpre (fun hp => fence_prefix_absurd c a' hnc hlast hp)
    · rw [if_neg hpre, ih (contains_tail_false _ c a' hnc) (last_shift c a' hlast)]
      rfl

lemma isPrefixOf_of_append_isPrefixOf (a b l : List Char)
    (h : (a ++ b).isPrefixOf l = true) : a.isPrefixOf l = true := by
  rw [List.isPrefixOf_iff_prefix] at h ⊢
  exact List.IsPrefix.trans (List.prefix_append a b) h

lemma splitFirst_fenceJson_none : ∀ (a : List Char),
    containsSub fenceMark a = false →
    (∀ t, a = t ++ ['\x60'] → False) →
    splitFirst fenceJson (a ++ fenceMark) = none := by
  intro a
  induction a with
  | nil =>
    intro _ _
    rw [List.nil_append]
    decide
  | cons c a' ih =>
    intro hnc hlast
    rw [List.cons_append, splitFirst]
    by_cases hpre : fenceJson.isPrefixOf (c :: (a' ++ fenceMark))
    · exfalso
      have hpre' : fenceMark.isPrefixOf (c :: (a' ++ fenceMark)) = true := by
        refine isPrefixOf_of_append_isPrefixOf fenceMark "json".data _ ?_
        rw [show fenceMark ++ "json".data = fenceJson from rfl]
        exact hpre
      exact fence_prefix_absurd c a' hnc hlast hpre'
    · rw [if_neg hpre, ih (contains_tail_false _ c a' hnc) (last_shift c a' hlast)]
      rfl

lemma contains_append_newline : ∀ (s : List Char), containsSub fenceMark s = false →
    containsSub fenceMark (s ++ ['\n']) = false := by
  intro s
  induction s with
  | nil => intro _; decide
  | cons c s' ih =>
    intro h
    rw [List.cons_append, containsSub_cons_eq]
    have htail := ih (contains_tail_false _ c s' h)
    rw [htail, Bool.or_false]
    by_cases hp : fenceMark.isPrefixOf (c :: (s' ++ ['\n']))
    · exfalso
      obtain ⟨e, f, Y, hX, h1, h2, h3⟩ := fence_prefix_cases c _ hp
      subst h1
      rcases s' with _ | ⟨d, s''⟩
      · rw [List.nil_append] at hX
        injection hX with _ hX2
        exact List.noConfusion hX2
      · rcases s'' with _ | ⟨d2, s'''⟩
        · rw [List.cons_append, List.nil_append] at hX
          injection hX with hde hX2
          injection hX2 with hnf _
          rw [h3] at hnf
          exact absurd hnf (by decide)
        · rw [List.cons_append, List.cons_append] at hX
          injection hX with hde hX2
          injection hX2 with hd2f _
          rw [h2] at hde
          rw [h3] at hd2f
          subst hde
          subst hd2f
          rw [containsSub_ticks] at h
          exact Bool.noConfusion h
    · exact Bool.eq_false_iff.mpr hp

lemma contains_fence_pad (s : List Char) (hs : containsSub fenceMark s = false) :
    containsSub fenceMark ('\n' :: s ++ ['\n']) = false := by
  have h2 := contains_append_newline s hs
  rw [show ('\n' :: s ++ ['\n'] : List Char) = '\n' :: (s ++ ['\n']) from rfl,
    containsSub_cons_eq, h2, Bool.or_false]
  by_cases hp : fenceMark.isPrefixOf ('\n' :: (s ++ ['\n']))
  · obtain ⟨_, _, _, _, h1, _, _⟩ := fence_prefix_cases '\n' _ hp
    exact absurd h1 (by decide)
  · exact Bool.eq_false_iff.mpr hp

lemma newline_pad_not_tick_end (s : List Char) :
    ∀ t, ('\n' :: s ++ ['\n']) = t ++ ['\x60'] → False := by
  intro t ht
  have h1 : (('\n' :: s) ++ ['\n']).getLast? = some '\n' := List.getLast?_concat _
  rw [show (('\n' :: s) ++ ['\n'] : List Char) = '\n' :: s ++ ['\n'] from rfl, ht,
    List.getLast?_concat] at h1
  injection h1 with h1
  exact absurd h1 (by decide)

lemma pySplitCore_none (sep : List Char) (f : Nat) (l : List Char)
    (h : splitFirst sep l = none) : pySplitCore sep f l = [l] := by
  rcases f with _ | f
  · rfl
  · rw [pySplitCore, h]

lemma pyStrip_wrap (s : List Char) : pyStrip (wrapJsonFence s) = wrapJsonFence s := by
  rw [pyStrip]
  have h1 : (wrapJsonFence s).dropWhile pySpace = wrapJsonFence s := by
    rw [show wrapJsonFence s =
      '\x60' :: ("``json".data ++ ('\n' :: s ++ '\n' :: fenceMark)) from rfl]
    rw [List.dropWhile_cons, if_neg (by decide)]
  rw [h1]
  have hsplit : wrapJsonFence s =
      (fenceJson ++ '\n' :: s ++ ['\n', '\x60', '\x60']) ++ ['\x60'] := by
    rw [wrapJsonFence, show fenceMark = ['\x60', '\x60', '\x60'] from rfl]
    simp
  have h2 : (wrapJsonFence s).reverse.dropWhile pySpace = (wrapJsonFence s).reverse := by
    rw [hsplit, List.reverse_append, show ((['\x60'] : List Char)).reverse = ['\x60'] from rfl,
      List.singleton_append, List.dropWhile_cons, if_neg (by decide)]
  rw [h2, List.reverse_reverse]

lemma extractCandidate_wrap (s : List Char) (hs : containsSub fenceMark s = false) :
    extractCandidate (String.mk (wrapJsonFence s)) = '\n' :: s ++ ['\n'] := by
  have ha_nc : containsSub fenceMark ('\n' :: s ++ ['\n']) = false := contains_fence_pad s hs
  have ha_last := newline_pad_not_tick_end s
  have hres : ('\n' :: s ++ '\n' :: fenceMark : List Char) =
      ('\n' :: s ++ ['\n']) ++ fenceMark := by simp
  have hsp1 : splitFirst fenceJson (fenceJson ++ '\n' :: s ++ '\n' :: fenceMark) =
      some ([], '\n' :: s ++ '\n' :: fenceMark) := splitFirst_prefix_self _ _ (by decide)
  have hnone1 : splitFirst fenceJson ('\n' :: s ++ '\n' :: fenceMark) = none := by
    rw [hres]
    exact splitFirst_fenceJson_none _ ha_nc ha_last
  have h1 : pySplitOn fenceJson (fenceJson ++ '\n' :: s ++ '\n' :: fenceMark) =
      [[], '\n' :: s ++ '\n' :: fenceMark] := by
    rw [pySplitOn, pySplitCore, hsp1]
    dsimp only
    rw [pySplitCore_none _ _ _ hnone1]
  have hsp2 : splitFirst fenceMark ('\n' :: s ++ '\n' :: fenceMark) =
      some ('\n' :: s ++ ['\n'], []) := by
    rw [hres]
    exact splitFirst_fence_at_end _ ha_nc ha_last
  have h2 : pySplitOn fenceMark ('\n' :: s ++ '\n' :: fenceMark) =
      ['\n' :: s ++ ['\n'], []] := by
    rw [pySplitOn, pySplitCore, hsp2]
    dsimp only
    rw [pySplitCore_none _ _ _ (by decide)]
  have hcontains : containsSub fenceJson (fenceJson ++ '\n' :: s ++ '\n' :: fenceMark) = true := by
    rw [containsSub, hsp1]
    rfl
  rw [extractCandidate, show (String.mk (wrapJsonFence s)).data = wrapJsonFence s from rfl,
    pyStrip_wrap s, wrapJsonFence, hcontains, if_pos rfl, h1,
    show ([[], '\n' :: s ++ '\n' :: fenceMark].getD 1 []) =
      '\n' :: s ++ '\n' :: fenceMark from rfl, h2]
  rfl


lemma findPos_pad_brace (o : JObj) :
    findPos '\x7b' ('\n' :: serV (.jobj o) ++ ['\n']) = some 1 := by
  rw [show ('\n' :: serV (.jobj o) ++ ['\n'] : List Char) =
    '\n' :: '\x7b' :: ((serOIn o ++ ['\x7d']) ++ ['\n']) from rfl]
  rw [findPos, if_neg (by decide), findPos, if_pos rfl]
  rfl

lemma rfindPos_pad_brace (o : JObj) :
    rfindPos '\x7d' ('\n' :: serV (.jobj o) ++ ['\n']) = some ((serV (.jobj o)).length) := by
  rw [rfindPos]
  have hfp : findPos '\x7d' (('\n' :: serV (.jobj o) ++ ['\n']).reverse) = some 1 := by
    have hrev : ('\n' :: serV (.jobj o) ++ ['\n']).reverse =
        '\n' :: '\x7d' :: ((serOIn o).reverse ++ ('\x7b' :: ['\n'])) := by
      rw [show (serV (.jobj o)) = '\x7b' :: (serOIn o ++ ['\x7d']) from rfl]
      simp
    rw [hrev, findPos, if_neg (by decide), findPos, if_pos rfl]
    rfl
  rw [hfp]
  show some (('\n' :: serV (.jobj o) ++ ['\n']).length - 1 - 1) = some ((serV (.jobj o)).length)
  congr 1
  simp only [List.length_cons, List.length_append, List.length_nil]
  omega

lemma sliceL_pad (o : JObj) :
    sliceL ('\n' :: serV (.jobj o) ++ ['\n']) 1 ((serV (.jobj o)).length + 1) =
      serV (.jobj o) := by
  rw [sliceL]
  rw [show ('\n' :: serV (.jobj o) ++ ['\n'] : List Char).drop 1 =
    serV (.jobj o) ++ ['\n'] from rfl]
  rw [show (serV (.jobj o)).length + 1 - 1 = (serV (.jobj o)).length from rfl]
  exact List.take_left _ _

def oFive : JObj :=
  .ocons "score" (.jnum 80) (.ocons "title" (.jstr "t") (.ocons "critique" (.jstr "c")
    (.ocons "improvement" (.jstr "i") (.ocons "next_time" (.jstr "n") .onil))))

/-- An object whose `title` value itself contains the fence marker. -/
def oTicks : JObj :=
  .ocons "score" (.jnum 80) (.ocons "title" (.jstr "```") (.ocons "critique" (.jstr "c")
    (.ocons "improvement" (.jstr "i") (.ocons "next_time" (.jstr "n") .onil))))

/-- C5 (amended): for a well-formed JSON object carrying all five required
fields whose serialization does not itself contain the fence marker
three-backticks, parsing the serialization wrapped in a JSON-language-tagged
fenced block returns exactly that object. -/
theorem c5_tagged_fence_roundtrip (o : JObj)
    (hwf : jwfV (.jobj o) = true)
    (hfields : ∀ f ∈ requiredFields, (jlookup o f).isSome = true)
    (hnc : containsSub fenceMark (serV (.jobj o)) = false) :
    parseResponse (String.mk (wrapJsonFence (serV (.jobj o)))) = .ok o := by
  simp only [parseResponse]
  rw [extractCandidate_wrap _ hnc, findPos_pad_brace, rfindPos_pad_brace]
  dsimp only
  rw [sliceL_pad, loadsJson_serV _ hwf]
  dsimp only
  rw [fillFields_id _ _ hfields]

/-- C5 counterexample: the round trip is not the identity for every
five-field object.  When a field value contains the fence marker, the
serialization's own backticks terminate the fenced block early and the
parse fails outright. -/
theorem c5_fence_in_payload_breaks_roundtrip :
    (∀ f ∈ requiredFields, (jlookup oTicks f).isSome = true) ∧
    jwfV (.jobj oTicks) = true ∧
    parseResponse (String.mk (wrapJsonFence (serV (.jobj oTicks)))) =
      .error (.valueError "No valid JSON found in AI response") := by
  refine ⟨by decide, by decide, by decide⟩

/-- C5 witness: the spec's concrete five-field example round-trips. -/
theorem c5_tagged_fence_roundtrip_witness :
    parseResponse (String.mk (wrapJsonFence (serV (.jobj oFive)))) = .ok oFive :=
  c5_tagged_fence_roundtrip oFive (by decide) (by decide) (by decide)
